import Mathlib

/-!
Verification development for the wikitext serialization engine and the
indentation/pre-block recognition state machine of the Parsoid snapshot.

The development shallowly embeds:
  * the shared token model (`Tk`),
  * the Pre-Block 5-state FSM (`PreHandler`, from the range-tracking
    variant of the handler),
  * the text Escaper (`escapeWikiText` with its `wrapNonTextTokens` pass),
  * the Serializer Core (`serializeToken`, `serializeTokens`,
    `serializeDOM`) together with its Tag Handler Registry.

Strings manipulated by the engine are modelled as `List Char` so that
substring reasoning stays elementary.  Mutable JS state is threaded
explicitly; each embedded function cites the source file it mirrors.
-/

namespace Parsoid

/-- Character class of the JavaScript `\s` regex class (ASCII part);
used by the whitespace tests of the handlers. -/
def isWS (c : Char) : Bool :=
  c = ' ' || c = '\t' || c = '\n' || c = '\r' || c = '\x0c' || c = '\x0b'

/-- One attribute: an ordered (key, value) pair, as in the token model. -/
structure KV where
  k : List Char
  v : List Char
deriving Repr, DecidableEq

/-- The `dataAttribs` record carried by tag/comment/newline tokens:
optional token source range `tsr`, optional syntax marker `stx`, the
table-cell variant marker `stx_v`, original source `src`, round-trip
fields `gc`, `tail`, `sHref` used by the link handlers. -/
structure DataAttribs where
  tsr : Option (Int × Int) := none
  stx : Option String := none
  stx_v : Option String := none
  src : Option (List Char) := none
  gc : Bool := false
  tail : Option (List Char) := none
  sHref : Option (List Char) := none
deriving Repr, DecidableEq

/-- The token alphabet shared by the tokenizer, the Pre-Block machine and
the serializer: `TagTk`, `EndTagTk`, `SelfclosingTagTk`, plain strings,
`CommentTk`, `NlTk` and `EOFTk`. -/
inductive Tk where
  | tag (name : String) (attribs : List KV) (da : DataAttribs)
  | endTag (name : String) (attribs : List KV) (da : DataAttribs)
  | selfClosing (name : String) (attribs : List KV) (da : DataAttribs)
  | text (s : List Char)
  | comment (v : List Char) (da : DataAttribs)
  | nl (da : DataAttribs)
  | eof
deriving Repr, DecidableEq

/-- Element name of a token (empty for non-tag tokens, which have no
`name` property in the source). -/
def Tk.nameStr : Tk → String
  | .tag n _ _ => n
  | .endTag n _ _ => n
  | .selfClosing n _ _ => n
  | _ => ""

/-- Whether a token is a newline token. -/
def Tk.isNl : Tk → Bool
  | .nl _ => true
  | _ => false

/-- The `dataAttribs` of a token (strings carry none). -/
def Tk.da : Tk → DataAttribs
  | .tag _ _ d => d
  | .endTag _ _ d => d
  | .selfClosing _ _ d => d
  | .comment _ d => d
  | .nl d => d
  | _ => {}

/-- Modelled from the spec: `token.isHTMLTag()` (defined in the external
`mediawiki.parser.defines.js`, absent from `src/`): a tag token whose
`stx` source marker records that it was authored directly as HTML markup
(spec section 4.1, "source marker indicating it was authored directly as
markup syntax"); plain strings and comments are never HTML tags. -/
def Tk.isHTMLTagB : Tk → Bool
  | .tag _ _ d => d.stx = some "html"
  | .endTag _ _ d => d.stx = some "html"
  | .selfClosing _ _ d => d.stx = some "html"
  | _ => false

/-- Modelled from the spec: `Util.isSolTransparent` (external
`mediawiki.Util.js`, absent from `src/`): all-whitespace strings,
comments, and self-closing `meta` marker tags do not disqualify
start-of-line status (spec section 4.4 and the local `isSolTransparent`
of the non-range-tracking handler in `src/unnamed/part_000`). -/
def isSolTransparent : Tk → Bool
  | .text s => s.all isWS
  | .comment _ _ => true
  | .selfClosing n _ _ => n = "meta"
  | _ => false

/-- Modelled from the spec: `Util.isBlockTag` (external
`mediawiki.Util.js`, absent from `src/`): whether an element name is
block-level (spec section 4.4, "block-level or table-structural tag"). -/
def isBlockTagName (n : String) : Bool :=
  n = "div" || n = "p" || n = "table" || n = "tbody" || n = "tr" ||
  n = "td" || n = "th" || n = "caption" || n = "ul" || n = "ol" ||
  n = "dl" || n = "li" || n = "dt" || n = "dd" || n = "pre" ||
  n = "blockquote" || n = "h1" || n = "h2" || n = "h3" || n = "h4" ||
  n = "h5" || n = "h6" || n = "center" || n = "hr"

/-- Modelled from the spec: `Util.isTableTag` (external
`mediawiki.Util.js`, absent from `src/`): an open or close tag with a
table-structural element name. -/
def isTableTag : Tk → Bool
  | .tag n _ _ =>
      n = "table" || n = "tbody" || n = "tr" || n = "td" || n = "th" || n = "caption"
  | .endTag n _ _ =>
      n = "table" || n = "tbody" || n = "tr" || n = "td" || n = "th" || n = "caption"
  | _ => false

namespace PreHandler

/-- The five FSM states of the pre-block handler
(`src/unnamed/part_003`, `PreHandler.STATE_*`). -/
inductive PState where
  | sol | pre | preCollect | multilinePre | ignore
deriving Repr, DecidableEq

/-- Mutable fields of the range-tracking pre handler
(`src/unnamed/part_003`, `init`).  `anyRegistered` models whether the
any-token transform is currently installed in the pipeline
(`addTransform` / `removeTransform`), `inPre` the html-`pre` tracking. -/
structure PreSt where
  state : PState
  lastNlTk : Option Tk
  preTSR : Int
  tokens : List Tk
  preWSToken : Option Tk
  multiLinePreWSToken : Option Tk
  solTransparentTokens : List Tk
  anyRegistered : Bool
  inPre : Bool
deriving Repr, DecidableEq

/-- The `init` function of `src/unnamed/part_003` (lines 121-136): reset
every field; `addAny` re-installs the any-token transform (registration
is kept if it was already present).  `inPre` is not touched by `init`. -/
def preInit (wasRegistered : Bool) (addAny : Bool) (inPre : Bool) : PreSt :=
  { state := .sol, lastNlTk := none, preTSR := 0, tokens := [],
    preWSToken := none, multiLinePreWSToken := none,
    solTransparentTokens := [], anyRegistered := wasRegistered || addAny,
    inPre := inPre }

/-- The fresh handler state right after construction
(`PreHandler` constructor calls `init(this, true)`). -/
def freshSt : PreSt := preInit false true false

/-- The `isPre` helper of `src/unnamed/part_003` (lines 79-81) for open
tags: an HTML-syntax `TagTk` named `pre` (case-insensitive). -/
def isPreOpen : Tk → Bool
  | .tag n _ d => d.stx = some "html" && n.toUpper = "PRE"
  | _ => false

/-- The `isPre` helper of `src/unnamed/part_003` for close tags. -/
def isPreEnd : Tk → Bool
  | .endTag n _ d => d.stx = some "html" && n.toUpper = "PRE"
  | _ => false

/-- The `moveToIgnoreState` method (lines 138-141): enter `IGNORE` and
remove the any-token transform. -/
def moveToIgnoreState (s : PreSt) : PreSt :=
  { s with state := .ignore, anyRegistered := false }

/-- The `popLastNL` method (lines 143-148): append the held newline token
to the given list and clear it. -/
def popLastNL (s : PreSt) (ret : List Tk) : PreSt × List Tk :=
  match s.lastNlTk with
  | some t => ({ s with lastNlTk := none }, ret ++ [t])
  | none => (s, ret)

/-- The `getResultAndReset` method (lines 150-168): flush the buffered
tokens (with the held newline), the saved whitespace token, the buffered
sol-transparent tokens and the current token downstream, then reset. -/
def getResultAndReset (s : PreSt) (token : Tk) : PreSt × List Tk :=
  let p := popLastNL s s.tokens
  let s1 := p.1
  let toks := p.2
  let q : PreSt × List Tk :=
    match s1.preWSToken with
    | some w => ({ s1 with preWSToken := none }, toks ++ [w])
    | none => (s1, toks)
  let s2 := q.1
  let ret := q.2 ++ s2.solTransparentTokens ++ [token]
  ({ s2 with solTransparentTokens := [], tokens := [],
             multiLinePreWSToken := none }, ret)

/-- The `dataAttribs` given to a synthesized `pre` open tag: a one-wide
`tsr` at `preTSR` when an offset is available, nothing otherwise
(`processPre`, lines 175-178). -/
def mkPreDA (preTSR : Int) : DataAttribs :=
  if preTSR ≠ -1 then { tsr := some (preTSR, preTSR + 1) } else {}

/-- The `processPre` method (lines 170-203): wrap the accumulated tokens
in a synthesized `pre` open/close pair (only if there are tokens to
enclose), then emit the saved multiline whitespace token, the held
newline, the buffered sol-transparent tokens and the current token. -/
def processPre (s : PreSt) (token : Tk) : PreSt × List Tk :=
  let ret : List Tk :=
    if s.tokens ≠ [] then
      [Tk.tag "pre" [] (mkPreDA s.preTSR)] ++ s.tokens ++ [Tk.endTag "pre" [] {}]
    else []
  let ret2 : List Tk :=
    match s.multiLinePreWSToken with
    | some w => ret ++ [w]
    | none => ret
  let p := popLastNL { s with multiLinePreWSToken := none } ret2
  let ret3 := p.2 ++ p.1.solTransparentTokens ++ [token]
  ({ p.1 with solTransparentTokens := [], tokens := [] }, ret3)

/-- The `initPreTSR` helper of `onNewline` (lines 206-210): the end
offset of the newline's `tsr` when present and non-zero, `-1`
otherwise. -/
def initPreTSR (nltk : Tk) : Int :=
  match nltk.da.tsr with
  | some (_, b) => if b ≠ 0 then b else -1
  | none => -1

/-- The `onNewline` transform (lines 205-258), fired on every `NlTk`. -/
def onNewline (s : PreSt) (token : Tk) : PreSt × List Tk :=
  match s.state with
  | .sol =>
      let p := getResultAndReset s token
      ({ p.1 with preTSR := initPreTSR token }, p.2)
  | .pre =>
      let p := getResultAndReset s token
      ({ p.1 with preTSR := initPreTSR token, state := .sol }, p.2)
  | .preCollect =>
      ({ s with lastNlTk := some token, state := .multilinePre }, [])
  | .multilinePre =>
      let p := processPre s token
      ({ p.1 with preTSR := initPreTSR token, state := .sol }, p.2)
  | .ignore =>
      ({ preInit s.anyRegistered true s.inPre with preTSR := initPreTSR token },
       [token])

/-- The `onEnd` transform (lines 261-272), fired on `EOFTk` when the
any-token transform has been removed: clear `inPre`, reset (re-adding the
any transform only on the expected `IGNORE` path). -/
def onEnd (s : PreSt) (token : Tk) : PreSt × List Tk :=
  if s.state ≠ PState.ignore then
    (preInit s.anyRegistered false false, [token])
  else
    (preInit s.anyRegistered true false, [token])

/-- The `getUpdatedPreTSR` helper (lines 274-287): advance the running
source offset over a sol-transparent token.  (The final catch-all is only
reached for string tokens in the source.) -/
def getUpdatedPreTSR (tsr : Int) (token : Tk) : Int :=
  match token with
  | .comment v d =>
      match d.tsr with
      | some (_, b) => b
      | none => if tsr = -1 then -1 else (v.length : Int) + 7 + tsr
  | .selfClosing _ _ _ => -1
  | .text s => if tsr ≠ -1 then tsr + s.length else tsr
  | _ => tsr

/-- Shared `else` arm of the `STATE_SOL` case of `onAny`: buffer a
sol-transparent token (advancing `preTSR`), otherwise purge and move to
`IGNORE`. -/
def onAnySolOther (s : PreSt) (t : Tk) : PreSt × List Tk :=
  if isSolTransparent t then
    ({ s with preTSR := getUpdatedPreTSR s.preTSR t,
              tokens := s.tokens ++ [t] }, [])
  else
    let p := getResultAndReset s t
    (moveToIgnoreState p.1, p.2)

/-- Shared `else` arm of the `STATE_MULTILINE_PRE` case of `onAny`:
buffer a sol-transparent token, otherwise close out the block and move to
`IGNORE`. -/
def onAnyMlOther (s : PreSt) (t : Tk) : PreSt × List Tk :=
  if isSolTransparent t then
    ({ s with solTransparentTokens := s.solTransparentTokens ++ [t] }, [])
  else
    let p := processPre s t
    (moveToIgnoreState p.1, p.2)

/-- The `inPre` bookkeeping at the top of `onAny` (lines 291-295). -/
def onAnyPreUpdate (s0 : PreSt) (token : Tk) : PreSt :=
  if isPreOpen token then { s0 with inPre := true }
  else if isPreEnd token then { s0 with inPre := false } else s0

/-- The `STATE_PRE` arm of `onAny` (lines 349-366): buffer
sol-transparent tokens, purge on a table or html-block tag, otherwise
begin collecting literal-block content. -/
def onAnyInPre (s : PreSt) (token : Tk) : PreSt × List Tk :=
  if isSolTransparent token then
    ({ s with solTransparentTokens := s.solTransparentTokens ++ [token] }, [])
  else if isTableTag token ∨ (token.isHTMLTagB ∧ isBlockTagName token.nameStr) then
    let p := getResultAndReset s token
    (moveToIgnoreState p.1, p.2)
  else
    ({ s with tokens := s.tokens ++ s.solTransparentTokens ++ [token],
              solTransparentTokens := [], preWSToken := none,
              multiLinePreWSToken := none, state := .preCollect }, [])

/-- The `STATE_PRE_COLLECT` arm of `onAny` (lines 368-379): close out on
an html-block tag, otherwise keep collecting. -/
def onAnyInPreCollect (s : PreSt) (token : Tk) : PreSt × List Tk :=
  if token.isHTMLTagB ∧ isBlockTagName token.nameStr then
    let p := processPre s token
    (moveToIgnoreState p.1, p.2)
  else
    ({ s with preWSToken := none, multiLinePreWSToken := none,
              tokens := s.tokens ++ [token] }, [])

/-- The `onAny` transform (lines 289-412), fired on every non-newline
token while registered.  The source's self-call
`this.onAny(token.slice(1), ...)` always runs with the state just set to
`STATE_PRE` (from `STATE_SOL`) or `STATE_PRE_COLLECT` (from
`STATE_MULTILINE_PRE`), and those two arms make no further self-call, so
the recursion is embedded by one unfolding into the named per-state arm
functions; the sliced token is a string, for which the `isPre`, `IGNORE`
and `EOFTk` checks at the top of `onAny` do nothing.  The source
discards the tokens returned by the self-call (only the state mutation
is kept). -/
def onAny (s0 : PreSt) (token : Tk) : PreSt × List Tk :=
  let s := onAnyPreUpdate s0 token
  if s.state = PState.ignore then (s, [])
  else if token = Tk.eof then
    let p : PreSt × List Tk :=
      match s.state with
      | .sol | .pre => getResultAndReset s token
      | .preCollect | .multilinePre => processPre s token
      | .ignore => (s, [])
    (preInit p.1.anyRegistered false false, p.2)
  else
    match s.state with
    | .sol =>
        match token with
        | .text (' ' :: rest) =>
            if s.inPre = false then
              let ret := s.tokens
              let s1 : PreSt :=
                { s with tokens := [], preWSToken := some (.text [' ']),
                         state := .pre }
              if rest ≠ [] then ((onAnyInPre s1 (.text rest)).1, ret)
              else (s1, ret)
            else onAnySolOther s (.text (' ' :: rest))
        | t => onAnySolOther s t
    | .pre => onAnyInPre s token
    | .preCollect => onAnyInPreCollect s token
    | .multilinePre =>
        match token with
        | .text (' ' :: rest) =>
            let p := popLastNL s s.tokens
            let s2 : PreSt :=
              { p.1 with state := .preCollect,
                         tokens := p.2 ++ p.1.solTransparentTokens,
                         solTransparentTokens := [],
                         multiLinePreWSToken := some (.text [' ']) }
            if rest ≠ [] then ((onAnyInPreCollect s2 (.text rest)).1, [])
            else (s2, [])
        | t => onAnyMlOther s t
    | .ignore => (s, [])

/-- One token through the installed transforms, with the pipeline's
rank/skip discipline: `NlTk` is consumed by the newline transform; other
tokens reach the any transform while it is installed; with the any
transform removed, `EOFTk` reaches the end transform and everything else
passes through untouched. -/
def preStep (s : PreSt) (t : Tk) : PreSt × List Tk :=
  match t with
  | .nl _ => onNewline s t
  | .eof => if s.anyRegistered then onAny s t else onEnd s t
  | _ => if s.anyRegistered then onAny s t else (s, [t])

/-- Run the pre-block machine over a whole token stream, collecting the
downstream token sequence. -/
def preRun (s : PreSt) : List Tk → PreSt × List Tk
  | [] => (s, [])
  | t :: ts =>
      let p := preStep s t
      let q := preRun p.1 ts
      (q.1, p.2 ++ q.2)

/-- Whether a token is a string starting with a space character (the
JavaScript test `tc === String && token.match(/^ /)`). -/
def startsWithSpace : Tk → Bool
  | .text (' ' :: _) => true
  | _ => false

/-- A token that keeps the pre-block machine collecting: not a newline,
not end-of-input, not an html block tag, and not an html `pre` tag. -/
def nonDisqualifying (t : Tk) : Bool :=
  !(t.isNl) && !(t == Tk.eof) &&
  !(t.isHTMLTagB && isBlockTagName t.nameStr) &&
  !(isPreOpen t) && !(isPreEnd t)

theorem preCollect_step (s : PreSt) (t : Tk) (h1 : s.state = PState.preCollect)
    (h2 : s.anyRegistered = true) (hnd : nonDisqualifying t = true) :
    preStep s t = ({ s with preWSToken := none, multiLinePreWSToken := none,
                            tokens := s.tokens ++ [t] }, []) := by
  simp only [nonDisqualifying, Bool.and_eq_true, Bool.not_eq_true', beq_eq_false_iff_ne,
             Bool.not_eq_true, Bool.and_eq_false_iff, bne_iff_ne, ne_eq] at hnd
  obtain ⟨⟨⟨⟨hnl, hne⟩, hblk⟩, hpo⟩, hpe⟩ := hnd
  have hb : ¬(t.isHTMLTagB = true ∧ isBlockTagName t.nameStr = true) := by
    rcases hblk with h | h <;> simp [h]
  unfold preStep
  cases t with
  | nl d => simp [Tk.isNl] at hnl
  | eof => simp at hne
  | _ =>
      unfold onAny
      simp [onAnyPreUpdate, onAnyInPreCollect, hpo, hpe, h1, h2, hb]

theorem preCollect_run (ts : List Tk) (s : PreSt)
    (h1 : s.state = PState.preCollect) (h2 : s.anyRegistered = true)
    (h3 : s.preWSToken = none) (h4 : s.multiLinePreWSToken = none)
    (h5 : ∀ t ∈ ts, nonDisqualifying t = true) :
    preRun s ts = ({ s with tokens := s.tokens ++ ts }, []) := by
  induction ts generalizing s with
  | nil => simp [preRun]
  | cons t ts ih =>
      have hstep := preCollect_step s t h1 h2 (h5 t (by simp))
      have hrec := ih { s with preWSToken := none, multiLinePreWSToken := none,
                               tokens := s.tokens ++ [t] }
        h1 h2 rfl rfl (fun u hu => h5 u (by simp [hu]))
      simp only [preRun, hstep, hrec, h3, h4]
      simp

theorem preRun_append (s : PreSt) (ts1 ts2 : List Tk) :
    preRun s (ts1 ++ ts2) =
      ((preRun (preRun s ts1).1 ts2).1,
       (preRun s ts1).2 ++ (preRun (preRun s ts1).1 ts2).2) := by
  induction ts1 generalizing s with
  | nil => simp [preRun]
  | cons t ts ih => simp [preRun, ih]

theorem freshSt_nl_step (da : DataAttribs) :
    preStep freshSt (Tk.nl da) =
      ({ freshSt with preTSR := initPreTSR (Tk.nl da) }, [Tk.nl da]) := by
  simp [preStep, onNewline, getResultAndReset, popLastNL, freshSt, preInit]

theorem sol_space_text_step (s : PreSt) (w : List Char)
    (hs : s.state = PState.sol) (hreg : s.anyRegistered = true)
    (hip : s.inPre = false) (hw : w ≠ []) (hws : w.all isWS = false) :
    preStep s (Tk.text (' ' :: w)) =
      ({ s with tokens := s.solTransparentTokens ++ [Tk.text w],
                solTransparentTokens := [], preWSToken := none,
                multiLinePreWSToken := none, state := PState.preCollect },
       s.tokens) := by
  unfold preStep onAny
  simp [onAnyPreUpdate, isPreOpen, isPreEnd, hs, hreg, hip, hw,
        onAnyInPre, isSolTransparent, hws, isTableTag, Tk.isHTMLTagB]

/-- C2: for the stream `Newline, Text(" "++w), non-disqualifying tokens,
Newline` followed by end-of-input, the pre-block machine emits exactly
one synthesized `pre` open/close pair around the line's content: the
single leading space is consumed by the `StartOfLine` to `Pre`
transition and never emitted, and the remaining characters `w` of the
whitespace-run token are re-fed to the machine as a fresh string token,
which becomes the first token inside the block. -/
theorem c2_single_space_pre_line (da1 da2 : DataAttribs) (w : List Char)
    (ts : List Tk) (hw : w ≠ []) (hws : w.all isWS = false)
    (hts : ∀ t ∈ ts, nonDisqualifying t = true) :
    (preRun freshSt ([Tk.nl da1, Tk.text (' ' :: w)] ++ ts ++ [Tk.nl da2, Tk.eof])).2 =
      [Tk.nl da1,
       Tk.tag "pre" [] (mkPreDA (initPreTSR (Tk.nl da1))),
       Tk.text w] ++ ts ++
      [Tk.endTag "pre" [] {}, Tk.nl da2, Tk.eof] := by
  have h1 := freshSt_nl_step da1
  set s1 : PreSt := { freshSt with preTSR := initPreTSR (Tk.nl da1) } with hs1
  have h2 := sol_space_text_step s1 w rfl rfl rfl hw hws
  set s2 : PreSt :=
    { s1 with tokens := s1.solTransparentTokens ++ [Tk.text w],
              solTransparentTokens := [], preWSToken := none,
              multiLinePreWSToken := none, state := PState.preCollect } with hs2
  have h3 := preCollect_run ts s2 rfl rfl rfl rfl hts
  set s3 : PreSt := { s2 with tokens := s2.tokens ++ ts } with hs3
  have h4 : preStep s3 (Tk.nl da2) =
      ({ s3 with lastNlTk := some (Tk.nl da2), state := PState.multilinePre }, []) := by
    simp [preStep, onNewline]
  set s4 : PreSt :=
    { s3 with lastNlTk := some (Tk.nl da2), state := PState.multilinePre } with hs4
  have h5 : preStep s4 Tk.eof =
      (preInit true false false,
       [Tk.tag "pre" [] (mkPreDA (initPreTSR (Tk.nl da1))), Tk.text w] ++ ts ++
         [Tk.endTag "pre" [] {}, Tk.nl da2, Tk.eof]) := by
    unfold preStep onAny
    simp [onAnyPreUpdate, isPreOpen, isPreEnd, processPre, popLastNL, preInit, hs4, hs3, hs2,
          hs1, freshSt]
  show (preRun freshSt
      (Tk.nl da1 :: Tk.text (' ' :: w) :: (ts ++ [Tk.nl da2, Tk.eof]))).2 = _
  rw [preRun, preRun]
  simp only [h1, h2]
  rw [preRun_append]
  simp only [h3]
  rw [preRun, preRun, preRun]
  simp only [h4, h5]
  simp [freshSt, preInit]

theorem popLastNL_preTSR (s : PreSt) (r : List Tk) :
    (popLastNL s r).1.preTSR = s.preTSR := by
  unfold popLastNL; cases s.lastNlTk <;> simp

theorem processPre_preTSR (s : PreSt) (t : Tk) :
    (processPre s t).1.preTSR = s.preTSR := by
  unfold processPre
  simp only []
  rw [show (popLastNL { s with multiLinePreWSToken := none } _).1.preTSR = s.preTSR from
    popLastNL_preTSR _ _]

theorem getResultAndReset_preTSR (s : PreSt) (t : Tk) :
    (getResultAndReset s t).1.preTSR = s.preTSR := by
  unfold getResultAndReset
  cases h : s.lastNlTk <;> cases h2 : s.preWSToken <;>
    simp [popLastNL, h, h2]

theorem onAnyPreUpdate_shape (s : PreSt) (t : Tk) :
    ∃ b, onAnyPreUpdate s t = { s with inPre := b } := by
  unfold onAnyPreUpdate
  by_cases h1 : isPreOpen t = true
  · exact ⟨true, by simp [h1]⟩
  · by_cases h2 : isPreEnd t = true
    · exact ⟨false, by simp [h1, h2]⟩
    · exact ⟨s.inPre, by simp [h1, h2]⟩

theorem onAnyInPreCollect_preTSR (s : PreSt) (t : Tk) :
    (onAnyInPreCollect s t).1.preTSR = s.preTSR := by
  unfold onAnyInPreCollect
  by_cases h : t.isHTMLTagB = true ∧ isBlockTagName t.nameStr = true
  · simp [h, moveToIgnoreState, processPre_preTSR]
  · simp [h]

theorem onAnyMlOther_preTSR (s : PreSt) (t : Tk) :
    (onAnyMlOther s t).1.preTSR = s.preTSR := by
  unfold onAnyMlOther
  by_cases h : isSolTransparent t = true
  · simp [h]
  · simp [h, moveToIgnoreState, processPre_preTSR]

/-- C7: when the pre-block machine closes out a literal block with
accumulated tokens, the first emitted token is the synthesized `pre`
open tag carrying `tsr = [preTSR, preTSR+1]` when an offset is recorded
and no source range when `preTSR` is `-1`; and the recorded `preTSR` is
left untouched by every collecting step (any non-EOF token in
`PreCollect`, any non-newline non-EOF token in `MultilinePre`), so the
offset used is the one recorded when the machine most recently left
`StartOfLine`. -/
theorem c7_pre_block_source_range (s : PreSt) (t : Tk) (h : s.tokens ≠ []) :
    ((processPre s t).2.head? =
      some (Tk.tag "pre" []
        (if s.preTSR ≠ -1 then { tsr := some (s.preTSR, s.preTSR + 1) } else {}))) ∧
    (∀ s2 t2, s2.state = PState.preCollect → t2 ≠ Tk.eof →
        (preStep s2 t2).1.preTSR = s2.preTSR) ∧
    (∀ s2 t2, s2.state = PState.multilinePre → t2 ≠ Tk.eof → t2.isNl = false →
        (preStep s2 t2).1.preTSR = s2.preTSR) := by
  refine ⟨?_, ?_, ?_⟩
  · unfold processPre mkPreDA
    cases hml : s.multiLinePreWSToken <;>
      cases hln : s.lastNlTk <;>
        simp [h, popLastNL, hml, hln]
  · intro s2 t2 h2 hne
    obtain ⟨b, hb⟩ := onAnyPreUpdate_shape s2 t2
    cases t2 with
    | nl d => simp [preStep, onNewline, h2]
    | eof => exact absurd rfl hne
    | _ =>
        unfold preStep onAny
        by_cases hreg : s2.anyRegistered = true <;>
          simp_all [hb, onAnyInPreCollect_preTSR]
  · intro s2 t2 h2 hne hnl2
    obtain ⟨b, hb⟩ := onAnyPreUpdate_shape s2 t2
    cases t2 with
    | nl d => simp [Tk.isNl] at hnl2
    | eof => exact absurd rfl hne
    | text cs =>
        unfold preStep onAny
        by_cases hreg : s2.anyRegistered = true
        · rcases cs with _ | ⟨c, w⟩
          · simp_all [hb, onAnyMlOther_preTSR]
          · by_cases hc : c = ' '
            · subst hc
              rcases w with _ | ⟨c2, w2⟩ <;>
                cases hln : s2.lastNlTk <;>
                  simp_all [hb, popLastNL_preTSR, onAnyInPreCollect_preTSR, popLastNL]
            · simp_all [hb, onAnyMlOther_preTSR]
        · simp_all
    | _ =>
        unfold preStep onAny
        by_cases hreg : s2.anyRegistered = true <;>
          simp_all [hb, onAnyMlOther_preTSR]

/-- Witness for C7 at a concrete state with a recorded offset. -/
theorem c7_pre_block_source_range_witness :
    (processPre { freshSt with tokens := [Tk.text ['a']], preTSR := 5 } Tk.eof).2.head? =
      some (Tk.tag "pre" [] (if (5 : Int) ≠ -1 then { tsr := some (5, 5 + 1) } else {})) :=
  (c7_pre_block_source_range { freshSt with tokens := [Tk.text ['a']], preTSR := 5 }
    Tk.eof (by decide)).1

/-- Witness for C2: the concrete stream of the spec's scenario 3. -/
theorem c2_single_space_pre_line_witness :
    (preRun freshSt ([Tk.nl { tsr := some (0, 1) }, Tk.text [' ', 'x']] ++ [] ++
        [Tk.nl {}, Tk.eof])).2 =
      [Tk.nl { tsr := some (0, 1) },
       Tk.tag "pre" [] (mkPreDA (initPreTSR (Tk.nl { tsr := some (0, 1) }))),
       Tk.text ['x']] ++ [] ++ [Tk.endTag "pre" [] {}, Tk.nl {}, Tk.eof] :=
  c2_single_space_pre_line { tsr := some (0, 1) } {} ['x'] []
    (by decide) (by decide) (by simp)

/-- C5 (amended): in `MultilinePre`, a text token beginning with a space
character (0x20) releases the held-back newline into the accumulated
block content, folds in the buffered sol-transparent tokens, re-feeds
the characters after the first space as a fresh token, transitions to
`PreCollect`, and emits nothing downstream. -/
theorem c5_ml_space_to_precollect (s : PreSt) (w : List Char)
    (hs : s.state = PState.multilinePre) (hreg : s.anyRegistered = true) :
    (preStep s (Tk.text (' ' :: w))).1.state = PState.preCollect ∧
    (preStep s (Tk.text (' ' :: w))).1.tokens =
      s.tokens ++ (match s.lastNlTk with | some t0 => [t0] | none => []) ++
        s.solTransparentTokens ++ (if w = [] then [] else [Tk.text w]) ∧
    (preStep s (Tk.text (' ' :: w))).1.lastNlTk = none ∧
    (preStep s (Tk.text (' ' :: w))).2 = [] := by
  unfold preStep onAny
  cases hln : s.lastNlTk <;> rcases w with _ | ⟨c, w'⟩ <;>
    simp_all [onAnyPreUpdate, isPreOpen, isPreEnd, popLastNL,
              onAnyInPreCollect, Tk.isHTMLTagB]

/-- A concrete run that leaves the machine in `MultilinePre` with a held
newline. -/
def c5Stream : List Tk :=
  [Tk.nl { tsr := some (4, 5) }, Tk.text [' ', 'a'], Tk.nl { tsr := some (10, 11) }]

/-- Counterexample to C5 as stated: in `MultilinePre`, the
leading-whitespace text token `"\tb"` (whose leading whitespace is a tab,
not a space) does not transition to `PreCollect`: the machine closes out
the block and moves to `Ignore`, because the source tests `/^ /`
(a space), not general whitespace. -/
theorem c5_counterexample :
    (preRun freshSt c5Stream).1.state = PState.multilinePre ∧
    (preStep (preRun freshSt c5Stream).1 (Tk.text ['\t', 'b'])).1.state = PState.ignore ∧
    ¬ (preStep (preRun freshSt c5Stream).1 (Tk.text ['\t', 'b'])).1.state
        = PState.preCollect := by
  decide

/-- Witness for the amended C5 at the same concrete machine state. -/
theorem c5_ml_space_to_precollect_witness :
    (preStep (preRun freshSt c5Stream).1 (Tk.text (' ' :: ['c']))).1.state
        = PState.preCollect ∧
    (preStep (preRun freshSt c5Stream).1 (Tk.text (' ' :: ['c']))).1.tokens =
      (preRun freshSt c5Stream).1.tokens ++
        (match (preRun freshSt c5Stream).1.lastNlTk with
         | some t0 => [t0] | none => []) ++
        (preRun freshSt c5Stream).1.solTransparentTokens ++
        (if (['c'] : List Char) = [] then [] else [Tk.text ['c']]) ∧
    (preStep (preRun freshSt c5Stream).1 (Tk.text (' ' :: ['c']))).1.lastNlTk = none ∧
    (preStep (preRun freshSt c5Stream).1 (Tk.text (' ' :: ['c']))).2 = [] :=
  c5_ml_space_to_precollect (preRun freshSt c5Stream).1 ['c'] (by decide) (by decide)

/-- One transition of the pre-block machine as a relation, one
constructor per branch of the installed transforms (`onNewline`,
`onAny`, `onEnd` and the pass-through when the any-transform is
removed), with the branch guards as hypotheses.  This is the transition
table of the handler made explicit; `StepR_toFun` below shows the
embedded step function implements it, which in turn yields that the
relation is deterministic. -/
inductive StepR : PreSt → Tk → PreSt → List Tk → Prop where
  | nlSol (s : PreSt) (d : DataAttribs) (h : s.state = PState.sol) :
      StepR s (.nl d)
        { (getResultAndReset s (.nl d)).1 with preTSR := initPreTSR (.nl d) }
        (getResultAndReset s (.nl d)).2
  | nlPre (s : PreSt) (d : DataAttribs) (h : s.state = PState.pre) :
      StepR s (.nl d)
        { (getResultAndReset s (.nl d)).1 with
            preTSR := initPreTSR (.nl d),
            state := PState.sol }
        (getResultAndReset s (.nl d)).2
  | nlCollect (s : PreSt) (d : DataAttribs) (h : s.state = PState.preCollect) :
      StepR s (.nl d)
        { s with lastNlTk := some (.nl d), state := PState.multilinePre } []
  | nlMulti (s : PreSt) (d : DataAttribs) (h : s.state = PState.multilinePre) :
      StepR s (.nl d)
        { (processPre s (.nl d)).1 with
            preTSR := initPreTSR (.nl d),
            state := PState.sol }
        (processPre s (.nl d)).2
  | nlIgnore (s : PreSt) (d : DataAttribs) (h : s.state = PState.ignore) :
      StepR s (.nl d)
        { preInit s.anyRegistered true s.inPre with preTSR := initPreTSR (.nl d) }
        [.nl d]
  | anyIgnore (s : PreSt) (t : Tk) (hreg : s.anyRegistered = true)
      (hn : t.isNl = false)
      (hig : (onAnyPreUpdate s t).state = PState.ignore) :
      StepR s t (onAnyPreUpdate s t) []
  | anyEofSol (s : PreSt) (hreg : s.anyRegistered = true)
      (h : s.state = PState.sol) :
      StepR s .eof
        (preInit (getResultAndReset s Tk.eof).1.anyRegistered false false)
        (getResultAndReset s Tk.eof).2
  | anyEofPre (s : PreSt) (hreg : s.anyRegistered = true)
      (h : s.state = PState.pre) :
      StepR s .eof
        (preInit (getResultAndReset s Tk.eof).1.anyRegistered false false)
        (getResultAndReset s Tk.eof).2
  | anyEofCollect (s : PreSt) (hreg : s.anyRegistered = true)
      (h : s.state = PState.preCollect) :
      StepR s .eof
        (preInit (processPre s Tk.eof).1.anyRegistered false false)
        (processPre s Tk.eof).2
  | anyEofMulti (s : PreSt) (hreg : s.anyRegistered = true)
      (h : s.state = PState.multilinePre) :
      StepR s .eof
        (preInit (processPre s Tk.eof).1.anyRegistered false false)
        (processPre s Tk.eof).2
  | solSpaceOne (s : PreSt) (hreg : s.anyRegistered = true)
      (h : s.state = PState.sol) (hip : s.inPre = false) :
      StepR s (.text [' '])
        { s with
            tokens := [],
            preWSToken := some (.text [' ']),
            state := PState.pre }
        s.tokens
  | solSpaceMore (s : PreSt) (w : List Char) (hw : w ≠ [])
      (hreg : s.anyRegistered = true) (h : s.state = PState.sol)
      (hip : s.inPre = false) :
      StepR s (.text (' ' :: w))
        (onAnyInPre
          { s with
              tokens := [],
              preWSToken := some (.text [' ']),
              state := PState.pre } (.text w)).1
        s.tokens
  | solTr (s : PreSt) (t : Tk) (hreg : s.anyRegistered = true)
      (hn : t.isNl = false) (he : t ≠ .eof)
      (h : (onAnyPreUpdate s t).state = PState.sol)
      (hsp : ¬(startsWithSpace t = true ∧ (onAnyPreUpdate s t).inPre = false))
      (htr : isSolTransparent t = true) :
      StepR s t
        { onAnyPreUpdate s t with
            preTSR := getUpdatedPreTSR (onAnyPreUpdate s t).preTSR t,
            tokens := (onAnyPreUpdate s t).tokens ++ [t] } []
  | solPurge (s : PreSt) (t : Tk) (hreg : s.anyRegistered = true)
      (hn : t.isNl = false) (he : t ≠ .eof)
      (h : (onAnyPreUpdate s t).state = PState.sol)
      (hsp : ¬(startsWithSpace t = true ∧ (onAnyPreUpdate s t).inPre = false))
      (htr : isSolTransparent t = false) :
      StepR s t
        (moveToIgnoreState (getResultAndReset (onAnyPreUpdate s t) t).1)
        (getResultAndReset (onAnyPreUpdate s t) t).2
  | preTr (s : PreSt) (t : Tk) (hreg : s.anyRegistered = true)
      (hn : t.isNl = false) (he : t ≠ .eof)
      (h : (onAnyPreUpdate s t).state = PState.pre)
      (htr : isSolTransparent t = true) :
      StepR s t
        { onAnyPreUpdate s t with
            solTransparentTokens := (onAnyPreUpdate s t).solTransparentTokens ++ [t] }
        []
  | preBlk (s : PreSt) (t : Tk) (hreg : s.anyRegistered = true)
      (hn : t.isNl = false) (he : t ≠ .eof)
      (h : (onAnyPreUpdate s t).state = PState.pre)
      (htr : isSolTransparent t = false)
      (hbt : isTableTag t = true ∨ (t.isHTMLTagB = true ∧ isBlockTagName t.nameStr = true)) :
      StepR s t
        (moveToIgnoreState (getResultAndReset (onAnyPreUpdate s t) t).1)
        (getResultAndReset (onAnyPreUpdate s t) t).2
  | preOther (s : PreSt) (t : Tk) (hreg : s.anyRegistered = true)
      (hn : t.isNl = false) (he : t ≠ .eof)
      (h : (onAnyPreUpdate s t).state = PState.pre)
      (htr : isSolTransparent t = false)
      (hbt : ¬(isTableTag t = true ∨ (t.isHTMLTagB = true ∧ isBlockTagName t.nameStr = true))) :
      StepR s t
        { onAnyPreUpdate s t with
            tokens := (onAnyPreUpdate s t).tokens ++
              (onAnyPreUpdate s t).solTransparentTokens ++ [t],
            solTransparentTokens := [],
            preWSToken := none,
            multiLinePreWSToken := none,
            state := PState.preCollect } []
  | collectBlk (s : PreSt) (t : Tk) (hreg : s.anyRegistered = true)
      (hn : t.isNl = false) (he : t ≠ .eof)
      (h : (onAnyPreUpdate s t).state = PState.preCollect)
      (hb : t.isHTMLTagB = true ∧ isBlockTagName t.nameStr = true) :
      StepR s t
        (moveToIgnoreState (processPre (onAnyPreUpdate s t) t).1)
        (processPre (onAnyPreUpdate s t) t).2
  | collectAcc (s : PreSt) (t : Tk) (hreg : s.anyRegistered = true)
      (hn : t.isNl = false) (he : t ≠ .eof)
      (h : (onAnyPreUpdate s t).state = PState.preCollect)
      (hb : ¬(t.isHTMLTagB = true ∧ isBlockTagName t.nameStr = true)) :
      StepR s t
        { onAnyPreUpdate s t with
            preWSToken := none,
            multiLinePreWSToken := none,
            tokens := (onAnyPreUpdate s t).tokens ++ [t] } []
  | mlSpaceOne (s : PreSt) (hreg : s.anyRegistered = true)
      (h : s.state = PState.multilinePre) :
      StepR s (.text [' '])
        { (popLastNL s s.tokens).1 with
            state := PState.preCollect,
            tokens := (popLastNL s s.tokens).2 ++
              (popLastNL s s.tokens).1.solTransparentTokens,
            solTransparentTokens := [],
            multiLinePreWSToken := some (.text [' ']) } []
  | mlSpaceMore (s : PreSt) (w : List Char) (hw : w ≠ [])
      (hreg : s.anyRegistered = true) (h : s.state = PState.multilinePre) :
      StepR s (.text (' ' :: w))
        (onAnyInPreCollect
          { (popLastNL s s.tokens).1 with
              state := PState.preCollect,
              tokens := (popLastNL s s.tokens).2 ++
                (popLastNL s s.tokens).1.solTransparentTokens,
              solTransparentTokens := [],
              multiLinePreWSToken := some (.text [' ']) } (.text w)).1 []
  | mlTr (s : PreSt) (t : Tk) (hreg : s.anyRegistered = true)
      (hn : t.isNl = false) (he : t ≠ .eof)
      (h : (onAnyPreUpdate s t).state = PState.multilinePre)
      (hsp : startsWithSpace t = false)
      (htr : isSolTransparent t = true) :
      StepR s t
        { onAnyPreUpdate s t with
            solTransparentTokens := (onAnyPreUpdate s t).solTransparentTokens ++ [t] }
        []
  | mlOtherCase (s : PreSt) (t : Tk) (hreg : s.anyRegistered = true)
      (hn : t.isNl = false) (he : t ≠ .eof)
      (h : (onAnyPreUpdate s t).state = PState.multilinePre)
      (hsp : startsWithSpace t = false)
      (htr : isSolTransparent t = false) :
      StepR s t
        (moveToIgnoreState (processPre (onAnyPreUpdate s t) t).1)
        (processPre (onAnyPreUpdate s t) t).2
  | endIgnore (s : PreSt) (hreg : s.anyRegistered = false)
      (h : s.state = PState.ignore) :
      StepR s .eof (preInit s.anyRegistered true false) [.eof]
  | endErr (s : PreSt) (hreg : s.anyRegistered = false)
      (h : ¬ s.state = PState.ignore) :
      StepR s .eof (preInit s.anyRegistered false false) [.eof]
  | pass (s : PreSt) (t : Tk) (hreg : s.anyRegistered = false)
      (hn : t.isNl = false) (he : t ≠ .eof) :
      StepR s t s [t]

theorem StepR_toFun {s : PreSt} {t : Tk} {s2 : PreSt} {o : List Tk}
    (hr : StepR s t s2 o) : preStep s t = (s2, o) := by
  cases hr with
  | nlSol d h => simp [preStep, onNewline, h]
  | nlPre d h => simp [preStep, onNewline, h]
  | nlCollect d h => simp [preStep, onNewline, h]
  | nlMulti d h => simp [preStep, onNewline, h]
  | nlIgnore d h => simp [preStep, onNewline, h]
  | anyIgnore t hreg hn hig =>
      cases t with
      | nl d => simp [Tk.isNl] at hn
      | eof => unfold preStep onAny; simp [hreg, hig]
      | _ => unfold preStep onAny; simp [hreg, hig]
  | anyEofSol hreg h =>
      unfold preStep onAny
      simp [hreg, onAnyPreUpdate, isPreOpen, isPreEnd, h]
  | anyEofPre hreg h =>
      unfold preStep onAny
      simp [hreg, onAnyPreUpdate, isPreOpen, isPreEnd, h]
  | anyEofCollect hreg h =>
      unfold preStep onAny
      simp [hreg, onAnyPreUpdate, isPreOpen, isPreEnd, h]
  | anyEofMulti hreg h =>
      unfold preStep onAny
      simp [hreg, onAnyPreUpdate, isPreOpen, isPreEnd, h]
  | solSpaceOne hreg h hip =>
      unfold preStep onAny
      simp [hreg, onAnyPreUpdate, isPreOpen, isPreEnd, h, hip]
  | solSpaceMore w hw hreg h hip =>
      unfold preStep onAny
      simp [hreg, onAnyPreUpdate, isPreOpen, isPreEnd, h, hip, hw]
  | solTr t hreg hn he h hsp htr =>
      obtain ⟨b, hb⟩ := onAnyPreUpdate_shape s t
      cases t with
      | nl d => simp [Tk.isNl] at hn
      | eof => exact absurd rfl he
      | text cs =>
          unfold preStep onAny
          rcases cs with _ | ⟨c, w⟩
          · simp_all [onAnySolOther, startsWithSpace]
          · by_cases hc : c = ' '
            · subst hc
              simp [startsWithSpace] at hsp
              simp_all [onAnySolOther]
            · simp_all [onAnySolOther, startsWithSpace, hc]
      | _ => unfold preStep onAny; simp_all [onAnySolOther]
  | solPurge t hreg hn he h hsp htr =>
      obtain ⟨b, hb⟩ := onAnyPreUpdate_shape s t
      cases t with
      | nl d => simp [Tk.isNl] at hn
      | eof => exact absurd rfl he
      | text cs =>
          unfold preStep onAny
          rcases cs with _ | ⟨c, w⟩
          · simp_all [onAnySolOther, startsWithSpace]
          · by_cases hc : c = ' '
            · subst hc
              simp [startsWithSpace] at hsp
              simp_all [onAnySolOther]
            · simp_all [onAnySolOther, startsWithSpace, hc]
      | _ => unfold preStep onAny; simp_all [onAnySolOther]
  | preTr t hreg hn he h htr =>
      cases t with
      | nl d => simp [Tk.isNl] at hn
      | eof => exact absurd rfl he
      | text cs =>
          unfold preStep onAny
          rcases cs with _ | ⟨c, w⟩ <;> simp_all [onAnyInPre]
      | _ => unfold preStep onAny; simp_all [onAnyInPre]
  | preBlk t hreg hn he h htr hbt =>
      cases t with
      | nl d => simp [Tk.isNl] at hn
      | eof => exact absurd rfl he
      | text cs =>
          unfold preStep onAny
          rcases cs with _ | ⟨c, w⟩ <;> simp_all [onAnyInPre]
      | _ => unfold preStep onAny; simp_all [onAnyInPre]
  | preOther t hreg hn he h htr hbt =>
      cases t with
      | nl d => simp [Tk.isNl] at hn
      | eof => exact absurd rfl he
      | text cs =>
          unfold preStep onAny
          rcases cs with _ | ⟨c, w⟩ <;> simp_all [onAnyInPre]
      | _ => unfold preStep onAny; simp_all [onAnyInPre]
  | collectBlk t hreg hn he h hb =>
      cases t with
      | nl d => simp [Tk.isNl] at hn
      | eof => exact absurd rfl he
      | text cs =>
          unfold preStep onAny
          rcases cs with _ | ⟨c, w⟩ <;> simp_all [onAnyInPreCollect]
      | _ => unfold preStep onAny; simp_all [onAnyInPreCollect]
  | collectAcc t hreg hn he h hb =>
      cases t with
      | nl d => simp [Tk.isNl] at hn
      | eof => exact absurd rfl he
      | text cs =>
          unfold preStep onAny
          rcases cs with _ | ⟨c, w⟩ <;> simp_all [onAnyInPreCollect]
      | _ => unfold preStep onAny; simp_all [onAnyInPreCollect]
  | mlSpaceOne hreg h =>
      unfold preStep onAny
      simp [hreg, onAnyPreUpdate, isPreOpen, isPreEnd, h]
  | mlSpaceMore w hw hreg h =>
      unfold preStep onAny
      simp [hreg, onAnyPreUpdate, isPreOpen, isPreEnd, h, hw]
  | mlTr t hreg hn he h hsp htr =>
      cases t with
      | nl d => simp [Tk.isNl] at hn
      | eof => exact absurd rfl he
      | text cs =>
          unfold preStep onAny
          rcases cs with _ | ⟨c, w⟩
          · simp_all [onAnyMlOther]
          · by_cases hc : c = ' '
            · subst hc; simp [startsWithSpace] at hsp
            · simp_all [onAnyMlOther, startsWithSpace, hc]
      | _ => unfold preStep onAny; simp_all [onAnyMlOther]
  | mlOtherCase t hreg hn he h hsp htr =>
      cases t with
      | nl d => simp [Tk.isNl] at hn
      | eof => exact absurd rfl he
      | text cs =>
          unfold preStep onAny
          rcases cs with _ | ⟨c, w⟩
          · simp_all [onAnyMlOther]
          · by_cases hc : c = ' '
            · subst hc; simp [startsWithSpace] at hsp
            · simp_all [onAnyMlOther, startsWithSpace, hc]
      | _ => unfold preStep onAny; simp_all [onAnyMlOther]
  | endIgnore hreg h => simp [preStep, onEnd, hreg, h]
  | endErr hreg h => simp [preStep, onEnd, hreg, h]
  | pass t hreg hn he =>
      cases t with
      | nl d => simp [Tk.isNl] at hn
      | eof => exact absurd rfl he
      | _ => simp [preStep, hreg]

/-- A whole run of the pre-block machine as a relation over `StepR`. -/
inductive RunR : PreSt → List Tk → PreSt → List Tk → Prop where
  | nil (s : PreSt) : RunR s [] s []
  | cons {s s1 s2 : PreSt} {t : Tk} {ts : List Tk} {o1 o2 : List Tk}
      (h1 : StepR s t s1 o1) (h2 : RunR s1 ts s2 o2) :
      RunR s (t :: ts) s2 (o1 ++ o2)

theorem RunR_toFun {s : PreSt} {ts : List Tk} {s2 : PreSt} {o : List Tk}
    (hr : RunR s ts s2 o) : preRun s ts = (s2, o) := by
  induction hr with
  | nil s => simp [preRun]
  | cons h1 h2 ih => simp [preRun, StepR_toFun h1, ih]

/-- C9: the pre-block machine is deterministic: two runs over the same
input token sequence, both starting from the freshly initialized handler
state, produce identical output token sequences (and identical final
states). -/
theorem c9_pre_machine_deterministic {ts : List Tk} {s1 s2 : PreSt}
    {o1 o2 : List Tk} (h1 : RunR freshSt ts s1 o1)
    (h2 : RunR freshSt ts s2 o2) : o1 = o2 ∧ s1 = s2 := by
  have e1 := RunR_toFun h1
  have e2 := RunR_toFun h2
  rw [e1] at e2
  exact ⟨congrArg Prod.snd e2, congrArg Prod.fst e2⟩

/-- Witness for C9: two explicitly built derivations for the
single-token stream `["a"]` from the fresh state. -/
theorem c9_pre_machine_deterministic_witness :
    ([Tk.text ['a']] : List Tk) = [Tk.text ['a']] ∧
      (moveToIgnoreState (getResultAndReset
        (onAnyPreUpdate freshSt (Tk.text ['a'])) (Tk.text ['a'])).1) =
      (moveToIgnoreState (getResultAndReset
        (onAnyPreUpdate freshSt (Tk.text ['a'])) (Tk.text ['a'])).1) :=
  c9_pre_machine_deterministic
    (RunR.cons (StepR.solPurge freshSt (Tk.text ['a']) rfl rfl (by decide)
        (by decide) (by decide) (by decide)) (RunR.nil _))
    (RunR.cons (StepR.solPurge freshSt (Tk.text ['a']) rfl rfl (by decide)
        (by decide) (by decide) (by decide)) (RunR.nil _))

end PreHandler

namespace WSP

/-- One list context of the serializer's `listStack`
(`src/unnamed/part_000`, lines 22-28). -/
structure ListCtx where
  itemCount : Nat
  bullets : List Char
  itemBullet : List Char
deriving Repr, DecidableEq

/-- Modelled from the spec: the environment object `state.env` is an
external collaborator (not in `src/`); only the fields and helpers the
serializer calls are modelled, as opaque parameters.  `wgScriptPath` is
the wiki's base path; `normalizeTitle`, `decodeURIComponent` and
`tokensToString` are the title-normalization, URI-decoding and
token-flattening helpers used by the link handler. -/
structure Env where
  wgScriptPath : List Char := []
  normalizeTitle : List Char → List Char := id
  decodeURIComponent : List Char → List Char := id
  tokensToString : List Char → List Char := id

/-- The Serializer State (`src/unnamed/part_000`, `WSP.initialState`
lines 49-55 plus the fields assigned during serialization).  The JS
object starts with only the five documented fields; every other field is
initially `undefined` (falsy), modelled by the defaults here.
`singleLineMode` is a counter whose decrements are always guarded by a
non-zero test, so `Nat` is faithful. -/
structure SState where
  env : Env
  listStack : List ListCtx := []
  onNewline : Bool := true
  onStartOfLine : Bool := true
  availableNewlineCount : Nat := 0
  singleLineMode : Nat := 0
  emitNewlineOnNextToken : Bool := false
  dropContent : Bool := false
  dropTail : Option (List Char) := none
  prevToken : Option Tk := none
  curToken : Option Tk := none
  prevTagToken : Option Tk := none
  currTagToken : Option Tk := none
  inNoWiki : Bool := false
  inHTMLPre : Bool := false
  inIndentPre : Bool := false
  textHandler : Option (List Char → List Char) := none

/-- The `WSP._inStartOfLineContext` helper (lines 226-230). -/
def inStartOfLineContext (s : SState) : Bool :=
  s.onStartOfLine || s.emitNewlineOnNextToken || decide (s.availableNewlineCount > 0)

/-- The `WSP._inNewLineContext` helper (lines 232-236). -/
def inNewLineContext (s : SState) : Bool :=
  s.onNewline || s.emitNewlineOnNextToken || decide (s.availableNewlineCount > 0)

/-- The characters of the literal-escape open marker `<nowiki>`. -/
def nwOpen : List Char := ['<', 'n', 'o', 'w', 'i', 'k', 'i', '>']

/-- The characters of the literal-escape close marker `</nowiki>`. -/
def nwClose : List Char := ['<', '/', 'n', 'o', 'w', 'i', 'k', 'i', '>']

/-- Entity-escaped form of the open marker. -/
def nwOpenEsc : List Char := ('&' :: 'l' :: 't' :: ';' :: ['n', 'o', 'w', 'i', 'k', 'i']) ++ ['&', 'g', 't', ';']

/-- Entity-escaped form of the close marker. -/
def nwCloseEsc : List Char := ('&' :: 'l' :: 't' :: ';' :: ['/', 'n', 'o', 'w', 'i', 'k', 'i']) ++ ['&', 'g', 't', ';']

/-- The `escapedSource.replace(/<(\/?nowiki)>/g, '&lt;$1&gt;')` pass of
`wrapNonTextTokens` (line 141): every occurrence of a literal nowiki
open/close marker is replaced by its entity-escaped form, scanning left
to right. -/
def replaceNowikiEntities : List Char → List Char
  | '<' :: '/' :: 'n' :: 'o' :: 'w' :: 'i' :: 'k' :: 'i' :: '>' :: rest =>
      nwCloseEsc ++ replaceNowikiEntities rest
  | '<' :: 'n' :: 'o' :: 'w' :: 'i' :: 'k' :: 'i' :: '>' :: rest =>
      nwOpenEsc ++ replaceNowikiEntities rest
  | c :: rest => c :: replaceNowikiEntities rest
  | [] => []

/-- JavaScript `String.prototype.substr(start, length)` on our character
lists: a negative start counts from the end, a non-positive length gives
the empty string. -/
def substrJS (s : List Char) (start length : Int) : List Char :=
  let st : Int := if start < 0 then max (s.length + start) 0 else start
  if length ≤ 0 then [] else (s.drop st.toNat).take length.toNat

/-- Scan state of `escapeWikiText`'s wrapping pass: the output pieces
`outTexts`, the pending non-text run `nonTextTokenAccum`, the running
`cursor`, the number of `console.warn` calls, and whether the
`No tsr on end token` exception was thrown (it is caught at the end of
`escapeWikiText`, lines 208-210, which logs it and keeps the pieces
collected so far). -/
structure EscSt where
  outTexts : List (List Char)
  accum : List Tk
  cursor : Int
  warnings : Nat
  aborted : Bool
deriving Repr

/-- The `wrapNonTextTokens` closure of `escapeWikiText`
(`src/unnamed/part_000`, lines 104-151).  Returns the updated scan state
and whether the missing-end-range exception was thrown. -/
def wrapNonTextTokens (inNewlineContext : Bool) (text : List Char)
    (es : EscSt) : EscSt × Bool :=
  match es.accum with
  | [] => (es, false)
  | first :: restAcc =>
      let last := (first :: restAcc).getLast (by simp)
      let p : Int × Int × Nat :=
        match first.da.tsr with
        | none => (es.cursor, es.cursor, es.warnings + 1)
        | some (a, _) =>
            let rs := if ¬ inNewlineContext then a - 1 else a
            (rs, rs, es.warnings)
      let rangeStart := p.1
      let cursor1 := p.2.1
      let warn1 := p.2.2
      let q : Int × Bool :=
        match last.da.tsr with
        | none => ((text.length : Int), true)
        | some (_, b) => (if ¬ inNewlineContext then b - 1 else b, false)
      let rangeEnd := q.1
      let missingEnd := q.2
      let escapedSource := replaceNowikiEntities (substrJS text rangeStart (rangeEnd - rangeStart))
      ({ outTexts := es.outTexts ++ [nwOpen, escapedSource, nwClose],
         accum := [],
         cursor := cursor1 + 17 + escapedSource.length,
         warnings := warn1,
         aborted := es.aborted }, missingEnd)

/-- Truthiness of an optional string (JS `token.dataAttribs.src`): an
absent or empty string is falsy. -/
def optStrTruthy : Option (List Char) → Bool
  | some s => s ≠ []
  | none => false

/-- The generated-content test on a tag token in the escape scan
(lines 178-183): `attribs[0]` is `data-mw-gc="both"` and original source
is present. -/
def gcSrcTag : Tk → Bool
  | .tag _ attribs da =>
      (match attribs.head? with
       | some kv => kv.k = ("data-mw-gc".toList) && kv.v = ("both".toList)
       | none => false) && optStrTruthy da.src
  | _ => false

/-- The inner skip loop of the escape scan for generated-content tags
(lines 190-197): drop tokens up to and including the first matching
`EndTagTk`. -/
def dropThroughEnd (n : String) : List Tk → List Tk
  | [] => []
  | .endTag m _ _ :: rest => if m = n then rest else dropThroughEnd n rest
  | _ :: rest => dropThroughEnd n rest

theorem dropThroughEnd_length (n : String) (ts : List Tk) :
    (dropThroughEnd n ts).length ≤ ts.length := by
  induction ts with
  | nil => simp [dropThroughEnd]
  | cons t rest ih =>
      cases t with
      | endTag m a d =>
          by_cases h : m = n <;> simp [dropThroughEnd, h] <;> omega
      | _ => simp [dropThroughEnd]; omega

/-- The main token loop of `escapeWikiText` (lines 152-210): strings and
newlines flush the pending non-text run and are emitted; `EOFTk` only
flushes; generated-content tags emit their original source and skip to
their end tag; everything else joins the pending run.  A thrown
missing-end-range exception stops the loop (the `catch` logs it).  The
source's inner skip loop shares the index `i` with the main loop; it is
threaded here as the `skip` mode argument so the scan stays one
left-to-right structural pass. -/
def escapeScanGo (inNL : Bool) (text : List Char) :
    Option String → List Tk → EscSt → EscSt
  | _, [], es => es
  | some n, token :: rest, es =>
      (match token with
       | .endTag m _ _ =>
           if m = n then escapeScanGo inNL text none rest es
           else escapeScanGo inNL text (some n) rest es
       | _ => escapeScanGo inNL text (some n) rest es)
  | none, token :: rest, es =>
      match token with
      | .text s =>
          let p := wrapNonTextTokens inNL text es
          if p.2 then { p.1 with warnings := p.1.warnings + 1, aborted := true }
          else escapeScanGo inNL text none rest
            { p.1 with outTexts := p.1.outTexts ++ [s],
                       cursor := p.1.cursor + s.length }
      | .nl _ =>
          let p := wrapNonTextTokens inNL text es
          if p.2 then { p.1 with warnings := p.1.warnings + 1, aborted := true }
          else escapeScanGo inNL text none rest
            { p.1 with outTexts := p.1.outTexts ++ [['\n']],
                       cursor := p.1.cursor + 1 }
      | .eof =>
          let p := wrapNonTextTokens inNL text es
          if p.2 then { p.1 with warnings := p.1.warnings + 1, aborted := true }
          else escapeScanGo inNL text none rest p.1
      | .tag n _ da =>
          if gcSrcTag token then
            let p := wrapNonTextTokens inNL text es
            if p.2 then { p.1 with warnings := p.1.warnings + 1, aborted := true }
            else escapeScanGo inNL text (some n) rest
              { p.1 with outTexts := p.1.outTexts ++ [da.src.getD []] }
          else escapeScanGo inNL text none rest { es with accum := es.accum ++ [token] }
      | _ => escapeScanGo inNL text none rest { es with accum := es.accum ++ [token] }

/-- The escape scan from the top of the token list (no pending skip). -/
def escapeScan (inNL : Bool) (text : List Char) (ts : List Tk) (es : EscSt) : EscSt :=
  escapeScanGo inNL text none ts es

/-- The `prefixedText.replace(/(\r?\n)/g, '$1_')` pass used in
indent-pre context (line 79). -/
def insertUnderscores : List Char → List Char
  | [] => []
  | '\r' :: '\n' :: rest => '\r' :: '\n' :: '_' :: insertUnderscores rest
  | '\n' :: rest => '\n' :: '_' :: insertUnderscores rest
  | c :: rest => c :: insertUnderscores rest

/-- The final `res.replace(/\n_/g, '\n')` pass in indent-pre context
(line 214). -/
def removeNLUnderscore : List Char → List Char
  | [] => []
  | '\n' :: '_' :: rest => '\n' :: removeNLUnderscore rest
  | c :: rest => c :: removeNLUnderscore rest

/-- Result of a call to the Escaper: the escaped text, the number of
warning diagnostics logged, and whether the scan stopped early on a
caught missing-range exception. -/
structure EscResult where
  res : List Char
  warnings : Nat
  aborted : Bool
deriving Repr

/-- The `tokens[0] = tokens[0].substr(1)` / `tokens.shift()` step of
`escapeWikiText` (lines 95-101): remove the `'_'` prefix char from the
first produced token, dropping the token when nothing remains. -/
def stripLeadTok : List Tk → List Tk
  | .text ['_'] :: rest => rest
  | .text s :: rest => .text (s.drop 1) :: rest
  | other => other

/-- The `WSP.escapeWikiText` method (`src/unnamed/part_000`,
lines 57-218), parameterized by the external PEG tokenizer it re-uses
(`mediawiki.tokenizer.peg.js` is not part of `src/`).  When the first
produced token is not a string, the source would raise a `TypeError` at
`tokens[0].substr(1)`; that unreachable-by-contract case is left as the
identity here (see the doc comment of `pegTokenize`). -/
def escapeWikiText (tokenize : List Char → List Tk) (state : SState)
    (text : List Char) : EscResult :=
  let inNL := inNewLineContext state
  let prefixed0 := if inNL then text else '_' :: text
  let prefixedText := if state.inIndentPre then insertUnderscores prefixed0 else prefixed0
  let tokens0 := tokenize prefixedText
  let tokens := if inNL then tokens0 else stripLeadTok tokens0
  let es := escapeScan inNL text tokens ⟨[], [], 0, 0, false⟩
  let res := es.outTexts.flatten
  { res := if state.inIndentPre then removeNLUnderscore res else res,
    warnings := es.warnings, aborted := es.aborted }

/-- Attributes of a token (tags only; other tokens have none). -/
def tkAttribs : Tk → List KV
  | .tag _ a _ => a
  | .endTag _ a _ => a
  | .selfClosing _ a _ => a
  | _ => []

/-- The `kv.v.replace( '"', '&quot;' )` call of `_serializeAttributes`
(line 818): JS `String.replace` with a plain string pattern replaces
only the first occurrence. -/
def replaceFirstQuote : List Char → List Char
  | [] => []
  | '"' :: rest => ('&' :: 'q' :: 'u' :: 'o' :: 't' :: ';' :: []) ++ rest
  | c :: rest => c :: replaceFirstQuote rest

/-- The `out` array built by `WSP._serializeAttributes`
(`src/unnamed/part_000`, lines 811-826): one rendered spec per
attribute that has a non-empty key or value. -/
def serializeAttributesOut : List KV → List (List Char)
  | [] => []
  | kv :: rest =>
      (if kv.k ≠ [] then
         (if kv.v ≠ [] then [kv.k ++ ('=' :: '"' :: replaceFirstQuote kv.v) ++ ['"']]
          else [kv.k])
       else if kv.v ≠ [] then [kv.v] else []) ++ serializeAttributesOut rest

/-- `WSP._serializeAttributes` (lines 811-829): `out.join(' ')`. -/
def serializeAttributes (attribs : List KV) : List Char :=
  List.intercalate [' '] (serializeAttributesOut attribs)

/-- Modelled from the spec: `env.KVtoHash` (external `mediawiki.Util.js`,
absent from `src/`): build a dictionary from the attribute list (spec
section 3; a later key overwrites an earlier one, so lookup returns the
last matching value). -/
def KVtoHash (attribs : List KV) (key : List Char) : Option (List Char) :=
  ((attribs.filter (fun kv => kv.k = key)).getLast?).map KV.v

/-- Handler-object fields `_serializeToken` reads after calling `handle`
(`startsNewline`, `endsLine`, `pairSepNLCount`, `newlineTransparent`,
`singleLine`, `ignore`); absent JS fields are falsy, modelled by the
defaults.  `handleF` returns the updated serializer state, the result
string, and the handler-field assignments the handle function performed
on `this` (which `_serializeToken` observes, since it reads the fields
after the call). -/
structure HMut where
  startsNewline : Option Bool := none
  newlineTransparent : Option Bool := none

structure SHandler where
  ignore : Bool := false
  startsNewline : Bool := false
  endsLine : Bool := false
  pairSepNLCount : Nat := 0
  newlineTransparent : Bool := false
  singleLine : Int := 0
  handleF : Option (SState → Tk → SState × List Char × HMut) := none

/-- Apply the field assignments a handle function performed on its
handler object.  Every handler of the registry that assigns one of these
fields assigns it on every execution path before `_serializeToken` reads
it, so per-call application is faithful to the shared mutable handler
objects of the source.  (The span handlers also write a dead
`this.inNoWiki` field that nothing reads; it is dropped here.) -/
def applyMut (h : SHandler) (m : HMut) : SHandler :=
  { h with startsNewline := m.startsNewline.getD h.startsNewline,
           newlineTransparent := m.newlineTransparent.getD h.newlineTransparent }

/-- The `id(v)` handler factory (lines 220-224). -/
def idHandle (v : List Char) : SState → Tk → SState × List Char × HMut :=
  fun s _ => (s, v, {})

/-- `isListItem` of `_listHandler` (lines 239-244), total on the
optional `state.prevToken`. -/
def isListItemTk : Option Tk → Bool
  | some (Tk.tag n _ _) => n = "li" || n = "dt" || n = "dd"
  | _ => false

/-- `WSP._listHandler` (lines 238-278).  The JS pushes to the end of the
`listStack` array and reads `stack.last()`; the list is kept in the same
order here. -/
def listHandler (bullet : List Char) (s0 : SState) (_t : Tk) :
    SState × List Char × HMut :=
  let s := if s0.singleLineMode > 0 then
             { s0 with singleLineMode := s0.singleLineMode - 1 } else s0
  match s.listStack.getLast? with
  | none =>
      ({ s with listStack := s.listStack ++ [⟨0, bullet, []⟩] }, bullet,
       { startsNewline := some true })
  | some curList =>
      let bullets := curList.bullets ++ curList.itemBullet ++ bullet
      let curList2 := { curList with itemCount := curList.itemCount + 1 }
      let stack2 := s.listStack.dropLast ++ [curList2]
      if curList2.itemCount > 1 && !(isListItemTk s.prevToken) then
        ({ s with listStack := stack2 ++ [⟨0, bullets, []⟩] }, bullets,
         { startsNewline := some true })
      else
        ({ s with listStack := stack2 ++ [⟨0, bullets, []⟩] }, bullet,
         { startsNewline := some false })

/-- `WSP._listEndHandler` (lines 280-283). -/
def listEndHandler (s : SState) (_t : Tk) : SState × List Char × HMut :=
  ({ s with listStack := s.listStack.dropLast }, [], {})

/-- `WSP._listItemHandler` (lines 285-337).  On an empty `listStack` the
source would throw a `TypeError` at `curList.itemCount++`
(unreachable-by-contract: list items only occur inside a list); that
case is the identity here. -/
def listItemHandler (bullet : List Char) (s : SState) (t : Tk) :
    SState × List Char × HMut :=
  match s.listStack.getLast? with
  | none => (s, bullet, { startsNewline := some false })
  | some curList =>
      let curList2 := { curList with itemCount := curList.itemCount + 1,
                                     itemBullet := bullet }
      let s2 := { s with listStack := s.listStack.dropLast ++ [curList2] }
      let isRepeat := match s2.prevToken with
        | some (Tk.endTag m _ _) => m = t.nameStr
        | _ => false
      let isMultiDtDd := t.nameStr = "dd" && !(t.da.stx = some "row") &&
        (match s2.prevTagToken with
         | some (Tk.endTag m _ _) => m = "dt"
         | _ => false)
      if curList2.itemCount > 1 &&
         (inStartOfLineContext s2 || isRepeat || isMultiDtDd) then
        (s2, curList2.bullets ++ bullet, { startsNewline := some true })
      else
        (s2, bullet, { startsNewline := some false })

/-- `WSP._serializeTableTag` (lines 339-345). -/
def serializeTableTag (symbol optionEndSymbol : List Char) (s : SState) (t : Tk) :
    SState × List Char × HMut :=
  if tkAttribs t ≠ [] then
    (s, symbol ++ [' '] ++ serializeAttributes (tkAttribs t) ++ optionEndSymbol, {})
  else (s, symbol, {})

/-- `WSP._emptyTags` (line 347). -/
def emptyTag (n : String) : Bool := n = "br" || n = "meta"

/-- `WSP._serializeHTMLTag` (lines 349-369). -/
def serializeHTMLTag (s : SState) (t : Tk) : SState × List Char × HMut :=
  let close : List Char := if emptyTag t.nameStr then ['/'] else []
  let s2 := if t.nameStr = "pre" then { s with inHTMLPre := true } else s
  if tkAttribs t ≠ [] then
    (s2, '<' :: (t.nameStr.toList ++ [' '] ++ serializeAttributes (tkAttribs t) ++
      close ++ ['>']), {})
  else (s2, '<' :: (t.nameStr.toList ++ close ++ ['>']), {})

/-- `WSP._serializeHTMLEndTag` (lines 371-380). -/
def serializeHTMLEndTag (s : SState) (t : Tk) : SState × List Char × HMut :=
  let s2 := if t.nameStr = "pre" then { s with inHTMLPre := false } else s
  if !(emptyTag t.nameStr) then
    (s2, '<' :: '/' :: (t.nameStr.toList ++ ['>']), {})
  else (s2, [], {})

/-- The `target.replace( /_/g, ' ' )` passes of the link handler. -/
def underscoreToSpace : List Char → List Char
  | [] => []
  | '_' :: r => ' ' :: underscoreToSpace r
  | c :: r => c :: underscoreToSpace r

/-- `WSP._linkHandler` (lines 382-452). -/
def linkHandler (s : SState) (t : Tk) : SState × List Char × HMut :=
  let rel := KVtoHash (tkAttribs t) ("rel".toList)
  let href := KVtoHash (tkAttribs t) ("href".toList)
  match rel, href with
  | some relv, some hrefv =>
      if relv ≠ [] then
        if relv = "mw:wikiLink".toList then
          let base := s.env.wgScriptPath
          let pre := hrefv.take base.length
          let target0 := if pre = base then hrefv.drop base.length else hrefv
          let target1 := s.env.decodeURIComponent target0
          let tailAndState : SState × List Char :=
            match t.da.tail with
            | some tl =>
                if tl ≠ [] then
                  ({ s with dropTail := some tl },
                   if t.da.gc then (t.da.sHref.getD []) else underscoreToSpace target1)
                else
                  (s, match t.da.sHref with
                      | some orig =>
                          if s.env.normalizeTitle (s.env.tokensToString orig) = target1
                          then orig else target1
                      | none => underscoreToSpace target1)
            | none =>
                (s, match t.da.sHref with
                    | some orig =>
                        if s.env.normalizeTitle (s.env.tokensToString orig) = target1
                        then orig else target1
                    | none => underscoreToSpace target1)
          let s2 := tailAndState.1
          let target := s2.env.tokensToString tailAndState.2
          if t.da.gc then
            ({ s2 with dropContent := true }, "[[".toList ++ target, {})
          else
            (s2, "[[".toList ++ target ++ ['|'], {})
        else if relv = "mw:extLink".toList then
          if t.da.stx = some "urllink" then
            ({ s with dropContent := true }, hrefv, {})
          else if t.da.gc then
            ({ s with dropContent := true }, '[' :: hrefv, {})
          else
            (s, '[' :: (hrefv ++ [' ']), {})
        else serializeHTMLTag s t
      else serializeHTMLTag s t
  | _, _ => serializeHTMLTag s t

/-- `WSP._linkEndHandler` (lines 453-469). -/
def linkEndHandler (s : SState) (t : Tk) : SState × List Char × HMut :=
  let rel := KVtoHash (tkAttribs t) ("rel".toList)
  let href := KVtoHash (tkAttribs t) ("href".toList)
  match rel, href with
  | some relv, some _ =>
      if relv ≠ [] then
        if relv = "mw:wikiLink".toList then
          ({ s with dropContent := false, dropTail := none },
           "]]".toList ++ (t.da.tail.getD []), {})
        else if relv = "mw:extLink".toList then
          ({ s with dropContent := false },
           if t.da.stx = some "urllink" then [] else [']'], {})
        else serializeHTMLEndTag s t
      else serializeHTMLEndTag s t
  | _, _ => serializeHTMLEndTag s t


/-- The `body.start` handler (lines 499-507). -/
def bodyStartHandler (s : SState) (_t : Tk) : SState × List Char × HMut :=
  ({ s with emitNewlineOnNextToken := false }, [], {})

/-- The `table.end` handler (lines 594-603). -/
def tableEndHandler (s : SState) (_t : Tk) : SState × List Char × HMut :=
  match s.prevTagToken with
  | some tk =>
      if tk.nameStr = "tr" then (s, "|\x7d".toList, { startsNewline := some true })
      else (s, "|\x7d".toList, { startsNewline := some false })
  | none => (s, "|\x7d".toList, { startsNewline := some false })

/-- The `th.start` handler (lines 606-618). -/
def thStartHandler (s : SState) (t : Tk) : SState × List Char × HMut :=
  if t.da.stx_v = some "row" then
    let r := serializeTableTag ("!!".toList) (" |".toList) s t
    (r.1, r.2.1, { startsNewline := some false })
  else
    let r := serializeTableTag ("!".toList) (" |".toList) s t
    (r.1, r.2.1, { startsNewline := some true })

/-- The `tr.start` handler (lines 619-633). -/
def trStartHandler (s : SState) (t : Tk) : SState × List Char × HMut :=
  match s.prevToken with
  | some (Tk.tag n _ _) =>
      if n = "tbody" then (s, [], {})
      else serializeTableTag ("|-".toList) [] s t
  | _ => serializeTableTag ("|-".toList) [] s t

/-- The `td.start` handler (lines 634-646). -/
def tdStartHandler (s : SState) (t : Tk) : SState × List Char × HMut :=
  if t.da.stx_v = some "row" then
    let r := serializeTableTag ("||".toList) (" |".toList) s t
    (r.1, r.2.1, { startsNewline := some false })
  else
    let r := serializeTableTag ("|".toList) (" |".toList) s t
    (r.1, r.2.1, { startsNewline := some true })

/-- The text handler installed by `pre.start`
(`t.replace(/\n/g, '\n ')`, lines 673-675). -/
def preTextHandler : List Char → List Char
  | [] => []
  | '\n' :: r => '\n' :: ' ' :: preTextHandler r
  | c :: r => c :: preTextHandler r

/-- The `pre.start` handler (lines 668-678). -/
def preStartHandler (s : SState) (_t : Tk) : SState × List Char × HMut :=
  ({ s with inIndentPre := true, textHandler := some preTextHandler }, [' '], {})

/-- The `pre.end` handler (lines 679-686). -/
def preEndHandler (s : SState) (_t : Tk) : SState × List Char × HMut :=
  ({ s with inIndentPre := false, textHandler := none }, [], {})

/-- The `meta.start` handler (lines 688-715).  When `argDict.content`
is absent with `typeof` `mw:tag`, the source would emit the string
`<undefined>`; that unreachable-by-contract case emits `<>` here. -/
def metaStartHandler (s : SState) (t : Tk) : SState × List Char × HMut :=
  let tpe := KVtoHash (tkAttribs t) ("typeof".toList)
  if tpe = some ("mw:tag".toList) then
    let content := (KVtoHash (tkAttribs t) ("content".toList)).getD []
    let s2 := if content = "nowiki".toList then { s with inNoWiki := true }
              else if content = "/nowiki".toList then { s with inNoWiki := false }
              else s
    (s2, '<' :: (content ++ ['>']), { newlineTransparent := some true })
  else if tpe = some ("mw:noinclude".toList) then
    if t.da.src = some ("<noinclude>".toList) then
      (s, "<noinclude>".toList, { newlineTransparent := some true })
    else
      (s, "</noinclude>".toList, { newlineTransparent := some true })
  else
    let r := serializeHTMLTag s t
    (r.1, r.2.1, { newlineTransparent := some false })

/-- The `span.start` handler (lines 717-737). -/
def spanStartHandler (s : SState) (t : Tk) : SState × List Char × HMut :=
  let gcAttr := KVtoHash (tkAttribs t) ("data-mw-gc".toList)
  if gcAttr = some ("both".toList) && optStrTruthy t.da.src then
    ({ s with dropContent := true }, (t.da.src).getD [], {})
  else if gcAttr = some ("wrapper".toList) then
    (s, nwOpen, {})
  else serializeHTMLTag s t

/-- The `span.end` handler (lines 738-756). -/
def spanEndHandler (s : SState) (t : Tk) : SState × List Char × HMut :=
  let gcAttr := KVtoHash (tkAttribs t) ("data-mw-gc".toList)
  if gcAttr = some ("both".toList) && optStrTruthy t.da.src then
    ({ s with dropContent := false }, [], {})
  else if gcAttr = some ("wrapper".toList) then
    (s, nwClose, {})
  else serializeHTMLEndTag s t

/-- One entry of the Tag Handler Registry: the `start` and `end`
sub-handlers, and whether the entry has a `make` method (only `p`,
lines 653-658: in single-line mode `p` falls back to the default HTML
handler). -/
structure TagHandlerPair where
  startH : Option SHandler := none
  endH : Option SHandler := none
  hasMake : Bool := false

/-- `WSP.defaultHTMLTagHandler` (lines 852-855). -/
def defaultHTMLPair : TagHandlerPair :=
  { startH := some { handleF := some serializeHTMLTag },
    endH := some { handleF := some serializeHTMLEndTag } }

/-- `WSP.tagHandlers` (lines 498-808). -/
def tagHandlers (n : String) : Option TagHandlerPair :=
  if n = "body" then some { startH := some { handleF := some bodyStartHandler } }
  else if n = "ul" then some
    { startH := some { startsNewline := true, handleF := some (listHandler ['*']),
                       pairSepNLCount := 2, newlineTransparent := true },
      endH := some { endsLine := true, handleF := some listEndHandler } }
  else if n = "ol" then some
    { startH := some { startsNewline := true, handleF := some (listHandler ['#']),
                       pairSepNLCount := 2, newlineTransparent := true },
      endH := some { endsLine := true, handleF := some listEndHandler } }
  else if n = "dl" then some
    { startH := some { startsNewline := true, handleF := some (listHandler []),
                       pairSepNLCount := 2 },
      endH := some { endsLine := true, handleF := some listEndHandler } }
  else if n = "li" then some
    { startH := some { handleF := some (listItemHandler []), singleLine := 1,
                       pairSepNLCount := 1 },
      endH := some { singleLine := -1 } }
  else if n = "dt" then some
    { startH := some { singleLine := 1, handleF := some (listItemHandler [';']),
                       pairSepNLCount := 1, newlineTransparent := true },
      endH := some { singleLine := -1 } }
  else if n = "dd" then some
    { startH := some { singleLine := 1, handleF := some (listItemHandler [':']),
                       pairSepNLCount := 1, newlineTransparent := true },
      endH := some { endsLine := true, singleLine := -1 } }
  else if n = "table" then some
    { startH := some { handleF := some (serializeTableTag ("\x7b|".toList) []) },
      endH := some { handleF := some tableEndHandler } }
  else if n = "tbody" then some
    { startH := some { ignore := true }, endH := some { ignore := true } }
  else if n = "th" then some { startH := some { handleF := some thStartHandler } }
  else if n = "tr" then some
    { startH := some { handleF := some trStartHandler, startsNewline := true } }
  else if n = "td" then some { startH := some { handleF := some tdStartHandler } }
  else if n = "caption" then some
    { startH := some { startsNewline := true,
                       handleF := some (serializeTableTag ("|+".toList) (" |".toList)) } }
  else if n = "p" then some
    { startH := some { startsNewline := true, pairSepNLCount := 2 },
      endH := some { endsLine := true },
      hasMake := true }
  else if n = "pre" then some
    { startH := some { startsNewline := true, handleF := some preStartHandler },
      endH := some { endsLine := true, handleF := some preEndHandler } }
  else if n = "meta" then some { startH := some { handleF := some metaStartHandler } }
  else if n = "span" then some
    { startH := some { handleF := some spanStartHandler },
      endH := some { handleF := some spanEndHandler } }
  else if n = "hr" then some
    { startH := some { startsNewline := true, endsLine := true,
                       handleF := some (idHandle ("----".toList)) } }
  else if n = "h1" then some
    { startH := some { startsNewline := true, handleF := some (idHandle ("=".toList)) },
      endH := some { endsLine := true, handleF := some (idHandle ("=".toList)) } }
  else if n = "h2" then some
    { startH := some { startsNewline := true, handleF := some (idHandle ("==".toList)) },
      endH := some { endsLine := true, handleF := some (idHandle ("==".toList)) } }
  else if n = "h3" then some
    { startH := some { startsNewline := true, handleF := some (idHandle ("===".toList)) },
      endH := some { endsLine := true, handleF := some (idHandle ("===".toList)) } }
  else if n = "h4" then some
    { startH := some { startsNewline := true, handleF := some (idHandle ("====".toList)) },
      endH := some { endsLine := true, handleF := some (idHandle ("====".toList)) } }
  else if n = "h5" then some
    { startH := some { startsNewline := true, handleF := some (idHandle ("=====".toList)) },
      endH := some { endsLine := true, handleF := some (idHandle ("=====".toList)) } }
  else if n = "h6" then some
    { startH := some { startsNewline := true, handleF := some (idHandle ("======".toList)) },
      endH := some { endsLine := true, handleF := some (idHandle ("======".toList)) } }
  else if n = "br" then some
    { startH := some { startsNewline := true, endsLine := true,
                       handleF := some (idHandle []) } }
  else if n = "b" then some
    { startH := some { handleF := some (idHandle ("'''".toList)) },
      endH := some { handleF := some (idHandle ("'''".toList)) } }
  else if n = "i" then some
    { startH := some { handleF := some (idHandle ("''".toList)) },
      endH := some { handleF := some (idHandle ("''".toList)) } }
  else if n = "a" then some
    { startH := some { handleF := some linkHandler },
      endH := some { handleF := some linkEndHandler } }
  else none

/-- `WSP._getTokenHandler` (lines 857-877). -/
def getTokenHandler (s : SState) (t : Tk) : SHandler :=
  let pair : TagHandlerPair :=
    if t.da.stx = some "html" then defaultHTMLPair
    else
      match tagHandlers t.nameStr with
      | some h =>
          if h.hasMake then
            (if s.singleLineMode > 0 then defaultHTMLPair else h)
          else h
      | none => defaultHTMLPair
  match t with
  | .tag _ _ _ | .selfClosing _ _ _ => pair.startH.getD {}
  | _ => pair.endH.getD {}

/-- Leading run of `(\r?\n)` newline units of the strip regex of
`_serializeToken` (line 947): unit count (the length after
`replace(/\r\n/g,'\n')`) and the remainder. -/
def nlUnitsLead : List Char → Nat × List Char
  | '\r' :: '\n' :: r => let p := nlUnitsLead r; (p.1 + 1, p.2)
  | '\n' :: r => let p := nlUnitsLead r; (p.1 + 1, p.2)
  | r => (0, r)

/-- Trailing `(\r?\n)` units, scanned on the reversed string (a unit
reversed is `'\n'` then an optional `'\r'`). -/
def nlUnitsTrailRev : List Char → Nat × List Char
  | '\n' :: '\r' :: r => let p := nlUnitsTrailRev r; (p.1 + 1, p.2)
  | '\n' :: r => let p := nlUnitsTrailRev r; (p.1 + 1, p.2)
  | r => (0, r)

/-- Trailing `(\r?\n)` units of a string: unit count and the core before
them. -/
def nlUnitsTrail (s : List Char) : Nat × List Char :=
  let p := nlUnitsTrailRev s.reverse
  (p.1, p.2.reverse)

/-- `res.replace(/\n/g, ' ')` of the single-line mode (line 1016). -/
def replaceNLSpace : List Char → List Char
  | [] => []
  | '\n' :: r => ' ' :: replaceNLSpace r
  | c :: r => c :: replaceNLSpace r

/-- The leading/trailing newline-unit strip of `_serializeToken`
(lines 945-963): leading unit count added to the buffer, the core
string, and the trailing unit count (`newNLCount`); an all-newlines
result gives `(count, '', 0)`. -/
def stripRes (res : List Char) : Nat × List Char × Nat :=
  if res ≠ [] then
    let lp := nlUnitsLead res
    if lp.2 = [] then (lp.1, [], 0)
    else
      let tp := nlUnitsTrail lp.2
      (lp.1, tp.2, tp.1)
  else (0, [], 0)

/-- The pair-rule guard of `_serializeToken` (lines 967-971): the
handler requests separator newlines, the previously emitted tag token
is a close tag of the same element name, and the buffer is below the
requested count. -/
def pairHitB (handler : SHandler) (tokenName : String) (prevTag : Option Tk)
    (avail1 : Nat) : Bool :=
  handler.pairSepNLCount ≠ 0 &&
  (match prevTag with
   | some (Tk.endTag m _ _) => m = tokenName
   | _ => false) &&
  avail1 < handler.pairSepNLCount

/-- The `dropTail` suffix strip of `_serializeToken` (lines 1011-1013). -/
def dropTailApply (dropTail : Option (List Char)) (res2 : List Char) : List Char :=
  match dropTail with
  | some tl =>
      if tl ≠ [] && decide (tl <:+ res2) then
        res2.take (res2.length - tl.length)
      else res2
  | none => res2

/-- The forced-newline guard of `_serializeToken` (lines 985-987). -/
def forceNLB (handler : SHandler) (sA : SState) (res2 : List Char) : Bool :=
  sA.singleLineMode = 0 &&
  ((res2.any (fun c => !(isWS c)) && sA.emitNewlineOnNextToken) ||
   (handler.startsNewline && !sA.onStartOfLine))

/-- The post-switch common path of `WSP._serializeToken` (lines
942-1045): newline stripping, the pair rule, the buffered-newline flush
and the handler-flag bookkeeping, all skipped while content-dropping is
active before and after the switch.  The JS mutates scalar state fields
one at a time; the successive values are threaded as scalars here and
the state record is rebuilt once at the end of each branch.  The
`state.singleLineMode` and `state.dropTail` reads (lines 985, 1011,
1015) see the values the state had on entry, since the common path
never changes them before those lines. -/
def serializeTokenCommon (dropContent0 : Bool) (handler : SHandler)
    (tokenName : String) (sA : SState) (res : List Char)
    (preChunks : List (List Char)) : SState × List (List Char) :=
  if !dropContent0 || !sA.dropContent then
    let res2 := (stripRes res).2.1
    let newNLCount := (stripRes res).2.2
    let avail1 : Nat := sA.availableNewlineCount + (stripRes res).1
    let avail2 : Nat :=
      if pairHitB handler tokenName sA.prevTagToken avail1 then
        handler.pairSepNLCount
      else avail1
    if res2 ≠ [] then
      let forceNL : Bool := forceNLB handler sA res2
      let avail3 : Nat := if forceNL && avail2 = 0 then 1 else avail2
      let emitNL1 : Bool := if forceNL then false else sA.emitNewlineOnNextToken
      let res4 := if sA.singleLineMode ≠ 0 then
                    replaceNLSpace (dropTailApply sA.dropTail res2)
                  else dropTailApply sA.dropTail res2
      let out := List.replicate avail3 '\n' ++ res4
      let onNewline1 := if avail3 ≠ 0 then true else sA.onNewline
      let onStart1 := if avail3 ≠ 0 then true else sA.onStartOfLine
      let onNewline2 := if res4 ≠ [] then false else onNewline1
      let onStart2 := if res4 ≠ [] then
                        (if handler.newlineTransparent then onStart1 else false)
                      else onStart1
      let emitNL2 := if handler.endsLine then true else emitNL1
      let slm2 := if handler.singleLine > 0 then
                    sA.singleLineMode + handler.singleLine.toNat
                  else sA.singleLineMode
      ({ sA with availableNewlineCount := newNLCount,
                 emitNewlineOnNextToken := emitNL2,
                 onNewline := onNewline2,
                 onStartOfLine := onStart2,
                 singleLineMode := slm2 },
       preChunks ++ [out])
    else
      let avail3 := avail2 + newNLCount
      let emitNL1 := if handler.startsNewline && !sA.onStartOfLine then true
                     else sA.emitNewlineOnNextToken
      let emitNL2 := if handler.endsLine then true else emitNL1
      let slm2 := if handler.singleLine > 0 then
                    sA.singleLineMode + handler.singleLine.toNat
                  else sA.singleLineMode
      ({ sA with availableNewlineCount := avail3,
                 emitNewlineOnNextToken := emitNL2,
                 singleLineMode := slm2 },
       preChunks)
  else
    (sA, preChunks)

/-- `WSP._serializeToken` (`src/unnamed/part_000`, lines 882-1046),
parameterized by the tokenizer the Escaper re-uses.  Returns the updated
state and the chunks passed to `state.chunkCB`, in order (the `EOFTk`
case calls it once directly at line 933, and the common path calls it
once more when the post-switch result is non-empty). -/
def serializeToken (tokenize : List Char → List Tk) (s0 : SState) (token : Tk) :
    SState × List (List Char) :=
  let dropContent0 := s0.dropContent
  let s1 := { s0 with prevToken := s0.curToken, curToken := some token }
  let hrs : SHandler × SState × List Char × List (List Char) :=
    match token with
    | .tag _ _ _ | .selfClosing _ _ _ =>
        let h := getTokenHandler s1 token
        if h.ignore then ({}, s1, [], [])
        else
          let s2 := { s1 with prevTagToken := s1.currTagToken, currTagToken := some token }
          match h.handleF with
          | some f =>
              let r := f s2 token
              (applyMut h r.2.2, r.1, r.2.1, [])
          | none => (h, s2, [], [])
    | .endTag _ _ _ =>
        let h := getTokenHandler s1 token
        if h.ignore then ({}, s1, [], [])
        else
          let s2 := { s1 with prevTagToken := s1.currTagToken, currTagToken := some token }
          let s3 := if h.singleLine < 0 && s2.singleLineMode > 0 then
                      { s2 with singleLineMode := s2.singleLineMode - 1 } else s2
          match h.handleF with
          | some f =>
              let r := f s3 token
              (applyMut h r.2.2, r.1, r.2.1, [])
          | none => (h, s3, [], [])
    | .text str =>
        let res0 := if s1.inNoWiki || s1.inHTMLPre then str
                    else (escapeWikiText tokenize s1 str).res
        let res1 := match s1.textHandler with
          | some f => f res0
          | none => res0
        ({}, s1, res1, [])
    | .comment v _ =>
        (({ newlineTransparent := true } : SHandler), s1,
         "<!--".toList ++ v ++ "-->".toList, [])
    | .nl _ =>
        let res1 := match s1.textHandler with
          | some f => f ['\n']
          | none => ['\n']
        ({}, s1, res1, [])
    | .eof =>
        let res := List.replicate s1.availableNewlineCount '\n'
        ({}, s1, res, [res])
  serializeTokenCommon dropContent0 hrs.1 token.nameStr hrs.2.1 hrs.2.2.1 hrs.2.2.2

/-- The serialization loop of `WSP.serializeTokens` (lines 840-848). -/
def serializeTokensGo (tokenize : List Char → List Tk) :
    SState → List Tk → SState × List (List Char)
  | s, [] => (s, [])
  | s, t :: ts =>
      let r1 := serializeToken tokenize s t
      let r2 := serializeTokensGo tokenize r1.1 ts
      (r2.1, r1.2 ++ r2.2)

/-- The module-level mutable data of the serializer: the array stored in
`WSP.initialState.listStack` (line 50).  `$.extend({}, this.initialState,
this.options)` (lines 835, 1053) copies field values shallowly, so every
"fresh" state's `listStack` is a reference to this one shared array:
pushes and pops through `state.listStack` mutate it in place.  The array
content is threaded through this record. -/
structure WSPModule where
  initialListStack : List ListCtx := []

/-- `WSP.serializeTokens` (lines 834-850), collecting the emitted chunks
(`chunkCB === undefined` branch).  Returns the module data as mutated
through the aliased `listStack` alongside the chunks. -/
def serializeTokens (tokenize : List Char → List Tk) (g : WSPModule) (env : Env)
    (tokens : List Tk) : WSPModule × List (List Char) :=
  let state0 : SState := { env := env, listStack := g.initialListStack }
  let r := serializeTokensGo tokenize state0 tokens
  ({ initialListStack := r.1.listStack }, r.2)

end WSP

/-- An HTML DOM node as the serializer walks it (`_serializeDOM`,
lines 1075-1111): element nodes with children, text nodes, comment
nodes. -/
inductive DomNode where
  | elem (name : String) (attribs : List KV) (da : DataAttribs) (children : List DomNode)
  | dtext (s : List Char)
  | dcomment (s : List Char)

namespace WSP

mutual

/-- `WSP._serializeDOM` (lines 1075-1111): element nodes serialize a
`TagTk`, the children, then an `EndTagTk`; text nodes serialize the
string; comment nodes clear `emitNewlineOnNextToken` around the comment
token and restore it after. -/
def serializeDOMNode (tokenize : List Char → List Tk) (st : SState) :
    DomNode → SState × List (List Char)
  | .elem name attribs da children =>
      let r1 := serializeToken tokenize st (Tk.tag name attribs da)
      let r2 := serializeDOMKids tokenize r1.1 children
      let r3 := serializeToken tokenize r2.1 (Tk.endTag name attribs da)
      (r3.1, r1.2 ++ r2.2 ++ r3.2)
  | .dtext s => serializeToken tokenize st (Tk.text s)
  | .dcomment s =>
      let saved := st.emitNewlineOnNextToken
      let r := serializeToken tokenize { st with emitNewlineOnNextToken := false }
        (Tk.comment s {})
      ({ r.1 with emitNewlineOnNextToken := saved }, r.2)

/-- The child loop of `_serializeDOM` (lines 1089-1091). -/
def serializeDOMKids (tokenize : List Char → List Tk) (st : SState) :
    List DomNode → SState × List (List Char)
  | [] => (st, [])
  | x :: xs =>
      let r1 := serializeDOMNode tokenize st x
      let r2 := serializeDOMKids tokenize r1.1 xs
      (r2.1, r1.2 ++ r2.2)

end

/-- `WSP.serializeDOM` (lines 1051-1069): fresh state by shallow
`$.extend` (so `listStack` aliases the module array, threaded through
`WSPModule`), walk the DOM, serialize a final `EOFTk`, and join the
collected chunks with `''`. -/
def serializeDOM (tokenize : List Char → List Tk) (g : WSPModule) (env : Env)
    (node : DomNode) : WSPModule × List Char :=
  let state0 : SState := { env := env, listStack := g.initialListStack }
  let r1 := serializeDOMNode tokenize state0 node
  let r2 := serializeToken tokenize r1.1 Tk.eof
  ({ initialListStack := r2.1.listStack }, (r1.2 ++ r2.2).flatten)


/-- Stated from the claim, for the C10 comparison: render one attribute
pair as the claim words it — `key="value"` with only the first double
quote of the value replaced by `&quot;` (later double quotes verbatim),
the bare key for an empty value, the bare value for an empty key,
nothing when both are empty. -/
def replaceFirstQuoteSpec (v : List Char) : List Char :=
  match v.findIdx? (· = '"') with
  | some i => v.take i ++ ('&' :: 'q' :: 'u' :: 'o' :: 't' :: ';' :: []) ++ v.drop (i + 1)
  | none => v

/-- Stated from the claim: the rendered form of one attribute. -/
def renderAttrSpec (kv : KV) : Option (List Char) :=
  if kv.k ≠ [] then
    if kv.v ≠ [] then
      some (kv.k ++ '=' :: '"' :: (replaceFirstQuoteSpec kv.v ++ ['"']))
    else some kv.k
  else if kv.v ≠ [] then some kv.v
  else none

theorem replaceFirstQuote_cons_ne (c : Char) (rest : List Char) (hc : ¬ c = '"') :
    replaceFirstQuote (c :: rest) = c :: replaceFirstQuote rest := by
  rw [replaceFirstQuote.eq_def]
  split
  · rename_i heq
    exact absurd heq (by simp)
  · rename_i r heq
    injection heq with h1 h2
    exact absurd h1 hc
  · rename_i c2 r2 heq
    injection heq with h1 h2
    rw [h1, h2]

theorem replaceFirstQuote_eq (v : List Char) :
    replaceFirstQuote v = replaceFirstQuoteSpec v := by
  induction v with
  | nil => rfl
  | cons c rest ih =>
      by_cases hc : c = '"'
      · subst hc
        simp [replaceFirstQuote, replaceFirstQuoteSpec, List.findIdx?_cons]
      · rw [replaceFirstQuote_cons_ne c rest hc, ih]
        unfold replaceFirstQuoteSpec
        rw [List.findIdx?_cons]
        cases hfi : List.findIdx? (fun x => decide (x = '"')) rest with
        | none => simp [hc, hfi]
        | some i => simp [hc, hfi]

/-- C10: `_serializeAttributes` renders a pair with non-empty key and
non-empty value as `key="value"` with only the first double quote of the
value replaced by `&quot;` (later double quotes verbatim), a pair with
non-empty key and empty value as the bare key, a pair with empty key
and non-empty value as the bare value, and joins the rendered
attributes with single spaces. -/
theorem c10_serialize_attributes (attribs : List KV) :
    serializeAttributes attribs =
      List.intercalate [' '] (attribs.filterMap renderAttrSpec) := by
  unfold serializeAttributes
  congr 1
  induction attribs with
  | nil => rfl
  | cons kv rest ih =>
      simp only [serializeAttributesOut, List.filterMap_cons]
      by_cases hk : kv.k = []
      · by_cases hv : kv.v = []
        · simp [renderAttrSpec, hk, hv, ih]
        · simp [renderAttrSpec, hk, hv, ih]
      · by_cases hv : kv.v = []
        · simp [renderAttrSpec, hk, hv, ih]
        · simp [renderAttrSpec, hk, hv, ih, replaceFirstQuote_eq]


end WSP


/-- Prepend a pending text accumulation as a string token (helper of the
modelled tokenizer). -/
def flushText (cur : List Char) (ts : List Tk) : List Tk :=
  if cur = [] then ts else Tk.text cur :: ts

/-- Index of the first occurrence of a `}}}` run. -/
def findTripleBrace : List Char → Option Nat
  | '}' :: '}' :: '}' :: _ => some 0
  | _ :: rest => (findTripleBrace rest).map (· + 1)
  | [] => none

/-- Modelled from the spec: the forward PEG tokenizer
(`mediawiki.tokenizer.peg.js`, required by the Escaper but not part of
`src/`).  The spec keeps the tokenizer's grammar out of scope (section
1) and only requires that it turn markup-like substrings into non-text
tokens carrying exact byte ranges (`tsr`, sections 3 and 4.3).  This
model recognizes explicit close tags `</name>` and template-parameter
braces `{{{...}}}` as non-text tokens with exact `tsr`, newlines as
`NlTk`, and everything else as plain text. -/
def pegTokenizeAux : Nat → List Char → Nat → List Char → List Tk
  | 0, _, _, cur => flushText cur []
  | fuel + 1, rem, pos, cur =>
      match rem with
      | [] => flushText cur []
      | '<' :: '/' :: rest =>
          (match rest.findIdx? (· = '>') with
           | some j =>
              flushText cur
                (Tk.endTag ((rest.take j).asString) [] { tsr := some (pos, pos + j + 3) } ::
                  pegTokenizeAux fuel (rest.drop (j + 1)) (pos + j + 3) [])
           | none => pegTokenizeAux fuel ('/' :: rest) (pos + 1) (cur ++ ['<']))
      | '{' :: '{' :: '{' :: rest =>
          (match findTripleBrace rest with
           | some j =>
              flushText cur
                (Tk.selfClosing "templatearg" [] { tsr := some (pos, pos + 3 + j + 3) } ::
                  pegTokenizeAux fuel (rest.drop (j + 3)) (pos + 3 + j + 3) [])
           | none => pegTokenizeAux fuel ('{' :: '{' :: rest) (pos + 1) (cur ++ ['{']))
      | '\n' :: rest =>
          flushText cur
            (Tk.nl { tsr := some (pos, pos + 1) } :: pegTokenizeAux fuel rest (pos + 1) [])
      | c :: rest => pegTokenizeAux fuel rest (pos + 1) (cur ++ [c])

/-- The modelled tokenizer over a whole text, terminated by `EOFTk`. -/
def pegTokenize (s : List Char) : List Tk := pegTokenizeAux (s.length + 1) s 0 [] ++ [Tk.eof]

/-- Discarding the `<nowiki>...</nowiki>` escape markers from a string,
as the escaping-soundness property words it: remove every occurrence of
the two marker strings, scanning left to right. -/
def stripNowiki : List Char → List Char
  | '<' :: '/' :: 'n' :: 'o' :: 'w' :: 'i' :: 'k' :: 'i' :: '>' :: rest =>
      stripNowiki rest
  | '<' :: 'n' :: 'o' :: 'w' :: 'i' :: 'k' :: 'i' :: '>' :: rest =>
      stripNowiki rest
  | c :: rest => c :: stripNowiki rest
  | [] => []

/-- A string containing no literal `<nowiki>` or `</nowiki>` marker. -/
def markerFree (s : List Char) : Prop :=
  ¬ (WSP.nwOpen <:+: s) ∧ ¬ (WSP.nwClose <:+: s)

instance (s : List Char) : Decidable (markerFree s) := by
  unfold markerFree; infer_instance

namespace WSP

theorem wrapNonTextTokens_warnings_le (inNL : Bool) (text : List Char)
    (es : EscSt) : es.warnings ≤ (wrapNonTextTokens inNL text es).1.warnings := by
  unfold wrapNonTextTokens
  cases hacc : es.accum with
  | nil => simp
  | cons first restAcc =>
      cases hts : first.da.tsr with
      | none => simp [hts]
      | some p => cases p with
        | mk a b => simp [hts]

theorem wrapNonTextTokens_aborted (inNL : Bool) (text : List Char)
    (es : EscSt) : (wrapNonTextTokens inNL text es).1.aborted = es.aborted := by
  unfold wrapNonTextTokens
  cases hacc : es.accum with
  | nil => simp
  | cons first restAcc =>
      cases hts : first.da.tsr with
      | none => simp [hts]
      | some p => cases p with
        | mk a b => simp [hts]

theorem escapeScanGo_warnings (inNL : Bool) (text : List Char) :
    ∀ ts mode es, es.warnings ≤ (escapeScanGo inNL text mode ts es).warnings ∧
      ((escapeScanGo inNL text mode ts es).aborted = true →
        es.aborted = true ∨
          es.warnings + 1 ≤ (escapeScanGo inNL text mode ts es).warnings) := by
  intro ts
  induction ts with
  | nil => intro mode es; cases mode <;> simp [escapeScanGo]
  | cons token rest ih =>
      intro mode es
      have hle := wrapNonTextTokens_warnings_le inNL text es
      have hb := wrapNonTextTokens_aborted inNL text es
      cases mode with
      | some n =>
          cases token with
          | endTag m a d =>
              by_cases hm : m = n
              · simp only [escapeScanGo]
                rw [if_pos hm]
                exact ⟨(ih none es).1, fun h => ((ih none es).2 h).imp id id⟩
              · simp only [escapeScanGo]
                rw [if_neg hm]
                exact ⟨(ih (some n) es).1, fun h => ((ih (some n) es).2 h).imp id id⟩
          | tag m a d =>
              simp only [escapeScanGo]
              exact ⟨(ih (some n) es).1, fun h => ((ih (some n) es).2 h).imp id id⟩
          | selfClosing m a d =>
              simp only [escapeScanGo]
              exact ⟨(ih (some n) es).1, fun h => ((ih (some n) es).2 h).imp id id⟩
          | text cs =>
              simp only [escapeScanGo]
              exact ⟨(ih (some n) es).1, fun h => ((ih (some n) es).2 h).imp id id⟩
          | comment v d =>
              simp only [escapeScanGo]
              exact ⟨(ih (some n) es).1, fun h => ((ih (some n) es).2 h).imp id id⟩
          | nl d =>
              simp only [escapeScanGo]
              exact ⟨(ih (some n) es).1, fun h => ((ih (some n) es).2 h).imp id id⟩
          | eof =>
              simp only [escapeScanGo]
              exact ⟨(ih (some n) es).1, fun h => ((ih (some n) es).2 h).imp id id⟩
      | none =>
          cases token with
          | text cs =>
              by_cases hab : (wrapNonTextTokens inNL text es).2 = true
              · simp [escapeScanGo, hab]; omega
              · simp only [escapeScanGo, hab, Bool.false_eq_true, if_false]
                refine ⟨le_trans hle ?_, fun h => ?_⟩
                · exact (ih none { (wrapNonTextTokens inNL text es).1 with
                    outTexts := (wrapNonTextTokens inNL text es).1.outTexts ++ [cs],
                    cursor := (wrapNonTextTokens inNL text es).1.cursor + cs.length }).1
                rcases (ih none _).2 h with h2 | h2
                · rw [hb] at h2; exact Or.inl h2
                · exact Or.inr (le_trans (Nat.add_le_add_right hle 1) h2)
          | nl d =>
              by_cases hab : (wrapNonTextTokens inNL text es).2 = true
              · simp [escapeScanGo, hab]; omega
              · simp only [escapeScanGo, hab, Bool.false_eq_true, if_false]
                refine ⟨le_trans hle ?_, fun h => ?_⟩
                · exact (ih none { (wrapNonTextTokens inNL text es).1 with
                    outTexts := (wrapNonTextTokens inNL text es).1.outTexts ++ [['\n']],
                    cursor := (wrapNonTextTokens inNL text es).1.cursor + 1 }).1
                rcases (ih none _).2 h with h2 | h2
                · rw [hb] at h2; exact Or.inl h2
                · exact Or.inr (le_trans (Nat.add_le_add_right hle 1) h2)
          | eof =>
              by_cases hab : (wrapNonTextTokens inNL text es).2 = true
              · simp [escapeScanGo, hab]; omega
              · simp only [escapeScanGo, hab, Bool.false_eq_true, if_false]
                refine ⟨le_trans hle ?_, fun h => ?_⟩
                · exact (ih none _).1
                rcases (ih none _).2 h with h2 | h2
                · rw [hb] at h2; exact Or.inl h2
                · exact Or.inr (le_trans (Nat.add_le_add_right hle 1) h2)
          | tag n a d =>
              by_cases hgc : gcSrcTag (Tk.tag n a d) = true
              · by_cases hab : (wrapNonTextTokens inNL text es).2 = true
                · simp [escapeScanGo, hgc, hab]; omega
                · simp only [escapeScanGo, hgc, hab, Bool.false_eq_true, if_true, if_false]
                  refine ⟨le_trans hle ?_, fun h => ?_⟩
                  · exact (ih (some n) { (wrapNonTextTokens inNL text es).1 with
                      outTexts := (wrapNonTextTokens inNL text es).1.outTexts ++ [d.src.getD []] }).1
                  rcases (ih (some n) _).2 h with h2 | h2
                  · rw [hb] at h2; exact Or.inl h2
                  · exact Or.inr (le_trans (Nat.add_le_add_right hle 1) h2)
              · simp only [escapeScanGo, hgc, Bool.false_eq_true, if_false]
                exact ⟨(ih none { es with accum := es.accum ++ [Tk.tag n a d] }).1,
                  fun h => ((ih none _).2 h).imp id id⟩
          | comment v d =>
              simp only [escapeScanGo]
              exact ⟨(ih none { es with accum := es.accum ++ [Tk.comment v d] }).1,
                fun h => ((ih none _).2 h).imp id id⟩
          | endTag n a d =>
              simp only [escapeScanGo]
              exact ⟨(ih none { es with accum := es.accum ++ [Tk.endTag n a d] }).1,
                fun h => ((ih none _).2 h).imp id id⟩
          | selfClosing n a d =>
              simp only [escapeScanGo]
              exact ⟨(ih none { es with accum := es.accum ++ [Tk.selfClosing n a d] }).1,
                fun h => ((ih none _).2 h).imp id id⟩

/-- C8: a token run that lacks `tsr` source-range data is non-fatal for
the Escaper.  First conjunct: when the run's last token has no `tsr`,
`wrapNonTextTokens` still wraps, extending the escaped range through the
end of the available text (`rangeEnd = text.length`), and the thrown
exception is flagged (it is caught at the end of `escapeWikiText`).
Second conjunct: when the run's first token has no `tsr`, the cursor
fallback is used and a warning diagnostic is logged.  Third conjunct: an
aborted scan never escapes `escapeWikiText` (the function is total in
this embedding, mirroring the `try`/`catch` of lines 152-210) and always
carries at least one logged warning. -/
theorem c8_missing_tsr_nonfatal :
    (∀ (inNL : Bool) (text : List Char) (es : EscSt) (first : Tk)
       (restAcc : List Tk) (_hacc : es.accum = first :: restAcc)
       (_hend : ((first :: restAcc).getLast (by simp)).da.tsr = none),
       ∃ rs : Int,
         (wrapNonTextTokens inNL text es).1.outTexts =
           es.outTexts ++
             [nwOpen,
              replaceNowikiEntities (substrJS text rs ((text.length : Int) - rs)),
              nwClose] ∧
         (wrapNonTextTokens inNL text es).2 = true) ∧
    (∀ (inNL : Bool) (text : List Char) (es : EscSt) (first : Tk)
       (restAcc : List Tk) (_hacc : es.accum = first :: restAcc)
       (_hstart : first.da.tsr = none),
       (wrapNonTextTokens inNL text es).1.warnings = es.warnings + 1) ∧
    (∀ (tokenize : List Char → List Tk) (st : SState) (text : List Char),
       (escapeWikiText tokenize st text).aborted = true →
       1 ≤ (escapeWikiText tokenize st text).warnings) := by
  refine ⟨?_, ?_, ?_⟩
  · intro inNL text es first restAcc hacc hend
    unfold wrapNonTextTokens
    rw [hacc]
    cases hts : first.da.tsr with
    | none => exact ⟨es.cursor, by simp [hts, hend]⟩
    | some ab =>
        cases ab with
        | mk a b =>
            by_cases hn : inNL = true
            · exact ⟨a, by simp [hts, hend, hn]⟩
            · exact ⟨a - 1, by simp [hts, hend, hn]⟩
  · intro inNL text es first restAcc hacc hstart
    unfold wrapNonTextTokens
    rw [hacc]
    cases hte : ((first :: restAcc).getLast (by simp)).da.tsr with
    | none => simp [hstart, hte]
    | some ab =>
        cases ab with
        | mk a b => simp [hstart, hte]
  · intro tokenize st text h
    unfold escapeWikiText escapeScan at h ⊢
    have := escapeScanGo_warnings (inNewLineContext st) text
      (if inNewLineContext st then
        tokenize (if st.inIndentPre then
          insertUnderscores (if inNewLineContext st then text else '_' :: text)
        else (if inNewLineContext st then text else '_' :: text))
       else
        stripLeadTok (tokenize (if st.inIndentPre then
          insertUnderscores (if inNewLineContext st then text else '_' :: text)
        else (if inNewLineContext st then text else '_' :: text)))) none ⟨[], [], 0, 0, false⟩
    simp only [] at h ⊢
    rcases this.2 h with h2 | h2
    · simp at h2
    · simpa using h2

/-- Witness for C8 at a concrete scan state whose pending run has no
source-range data at all. -/
theorem c8_missing_tsr_nonfatal_witness :
    ∃ rs : Int,
      (wrapNonTextTokens true ['x']
        ⟨[], [Tk.tag "b" [] {}], 0, 0, false⟩).1.outTexts =
        [] ++ [nwOpen,
               replaceNowikiEntities (substrJS ['x'] rs (((['x'] : List Char).length : Int) - rs)),
               nwClose] ∧
      (wrapNonTextTokens true ['x'] ⟨[], [Tk.tag "b" [] {}], 0, 0, false⟩).2 = true :=
  c8_missing_tsr_nonfatal.1 true ['x'] ⟨[], [Tk.tag "b" [] {}], 0, 0, false⟩
    (Tk.tag "b" [] {}) [] rfl (by decide)

end WSP

/-- Counterexample to C1 as stated, in both of its failure modes.
First, a literal marker: the text run `x</nowiki>`, re-tokenized with a
contract-conforming tokenization (the close tag carries the exact
source range [1,10]), escapes to `x<nowiki>&lt;/nowiki&gt;</nowiki>`:
the wrapped source has its literal `</nowiki>` entity-escaped (part_000
line 141), so discarding the `<nowiki>`/`</nowiki>` escape markers
yields `x&lt;/nowiki&gt;`, not the original text.  Second, indent-pre
context: the marker-free run `a\n{{{3}}}` escaped with
`inIndentPre = true` comes out as `a\n<nowiki>{{3}}}</nowiki>`: the
escaper re-tokenizes the text with a `'_'` inserted after each newline
(line 83), so the template-arg token's tsr `[3,10]` indexes the
underscore-inserted string, while `wrapNonTextTokens` slices the
original text at those offsets (line 121 compensates only for the
leading `'_'`, not the per-newline ones), losing one `\x7b`; stripping
the markers then yields `a\n{{3}}}`, not the original text. -/
theorem c1_counterexample :
    ((WSP.escapeWikiText pegTokenize { env := {} } ("x</nowiki>".toList)).res =
      ("x<nowiki>&lt;/nowiki&gt;</nowiki>").toList ∧
     stripNowiki (WSP.escapeWikiText pegTokenize { env := {} } ("x</nowiki>".toList)).res ≠
      ("x</nowiki>").toList) ∧
    (markerFree ("a\n{{{3}}}".toList) ∧
     (WSP.escapeWikiText pegTokenize { env := {}, inIndentPre := true }
        ("a\n{{{3}}}".toList)).res =
       ("a\n<nowiki>\x7b\x7b3\x7d\x7d\x7d</nowiki>").toList ∧
     stripNowiki (WSP.escapeWikiText pegTokenize { env := {}, inIndentPre := true }
        ("a\n{{{3}}}".toList)).res ≠ ("a\n{{{3}}}".toList)) := by
  refine ⟨⟨?_, ?_⟩, ?_, ?_, ?_⟩
  · decide
  · decide
  · decide
  · decide
  · decide

namespace WSP

/-- The tsr of the first token of a run (used to state the tokenizer
contract the escape scan relies on). -/
def headTsr : List Tk → Option (Int × Int)
  | [] => none
  | t :: _ => t.da.tsr

/-- The tsr of the last token of a run. -/
def lastTsr (l : List Tk) : Option (Int × Int) :=
  match l.getLast? with
  | some t => t.da.tsr
  | none => none

/-- Tokens the escape scan joins to the pending non-text run: neither a
string, a newline nor EOF (which flush), and not a generated-content tag
(which emits its original source and skips). -/
def nonFlushTk : Tk → Bool
  | .text _ => false
  | .nl _ => false
  | .eof => false
  | t => !(gcSrcTag t)

/-- Whether a token list starts with a token that flushes the pending
non-text run (a string, a newline or EOF). -/
def flushHead : List Tk → Bool
  | .text _ :: _ => true
  | .nl _ :: _ => true
  | .eof :: _ => true
  | _ => false

/-- The tokenizer contract `escapeWikiText` relies on (spec section 4.3:
non-text tokens carry exact `tsr` byte offsets into the source, string
tokens reproduce source characters, newline tokens stand for a `'\n'`):
the token stream tiles the text from position `p` to its end.  `shift`
is the offset the `'_'` prefixing adds to every tsr in non-newline
context (the scan compensates by subtracting 1).  Runs of non-text
tokens are taken maximally (the rest starts with a flushing token) and
contain no generated-content tags. -/
inductive EscWF (shift : Nat) (text : List Char) : Nat → List Tk → Prop where
  | eof : EscWF shift text text.length [Tk.eof]
  | str (p : Nat) (s : List Char) (rest : List Tk)
      (hpre : s <+: text.drop p)
      (hrest : EscWF shift text (p + s.length) rest) :
      EscWF shift text p (Tk.text s :: rest)
  | nlc (p : Nat) (d : DataAttribs) (rest : List Tk)
      (hc : text.drop p = '\n' :: text.drop (p + 1))
      (hrest : EscWF shift text (p + 1) rest) :
      EscWF shift text p (Tk.nl d :: rest)
  | run (p q : Nat) (run0 rest : List Tk) (b1 a2 : Int)
      (hne : run0 ≠ [])
      (hfirst : headTsr run0 = some (((p + shift : Nat) : Int), b1))
      (hlast : lastTsr run0 = some (a2, ((q + shift : Nat) : Int)))
      (hnf : ∀ t ∈ run0, nonFlushTk t = true)
      (hpq : p ≤ q)
      (hflush : flushHead rest = true)
      (hrest : EscWF shift text q rest) :
      EscWF shift text p (run0 ++ rest)

/-- Shape of the escape scan's output for an input text: the output is
the text with zero or more segments wrapped in `<nowiki>...</nowiki>`
markers. -/
inductive EscR : List Char → List Char → Prop where
  | nil : EscR [] []
  | raw (c : Char) (t o : List Char) : EscR t o → EscR (c :: t) (c :: o)
  | wrap (seg t o : List Char) : EscR t o →
      EscR (seg ++ t) (nwOpen ++ (seg ++ (nwClose ++ o)))

theorem escWF_ne_nil {shift : Nat} {text : List Char} {p : Nat} {toks : List Tk}
    (h : EscWF shift text p toks) : toks ≠ [] := by
  cases h with
  | eof => simp
  | str p s rest hpre hrest => simp
  | nlc p d rest hc hrest => simp
  | run p q run0 rest b1 a2 hne hfirst hlast hnf hpq hflush hrest =>
      intro hcontra
      exact hne (List.append_eq_nil.mp hcontra).1

theorem escR_raws (s : List Char) {t o : List Char} (h : EscR t o) :
    EscR (s ++ t) (s ++ o) := by
  induction s with
  | nil => simpa using h
  | cons c s ih => exact EscR.raw c _ _ ih

theorem prefix_cons_elim {α : Type} {s : List α} {c : α} {o : List α}
    (h : s <+: c :: o) : s = [] ∨ ∃ s2, s = c :: s2 ∧ s2 <+: o := by
  cases s with
  | nil => exact Or.inl rfl
  | cons d s2 =>
      obtain ⟨u, hu⟩ := h
      injection hu with h1 h2
      exact Or.inr ⟨s2, by rw [h1], ⟨u, h2⟩⟩

/-- A prefix of the escape scan's output made of characters other than
`'<'` never enters a marker, so it is a prefix of the scanned text. -/
theorem escR_safe_chars {t o : List Char} (h : EscR t o) :
    ∀ s, s <+: o → (∀ c ∈ s, c ≠ '<') → s <+: t := by
  induction h with
  | nil => intro s hs _; exact hs
  | raw c t2 o2 h2 ih =>
      intro s hs hc
      rcases prefix_cons_elim hs with rfl | ⟨s2, rfl, hs2⟩
      · exact List.nil_prefix
      · exact List.cons_prefix_cons.mpr
          ⟨rfl, ih s2 hs2 (fun x hx => hc x (List.mem_cons_of_mem _ hx))⟩
  | wrap seg t2 o2 h2 ih =>
      intro s hs hc
      have hs2 : s <+: '<' :: (('n' :: 'o' :: 'w' :: 'i' :: 'k' :: 'i' :: '>' :: []) ++
          (seg ++ (nwClose ++ o2))) := by
        simpa [nwOpen] using hs
      rcases prefix_cons_elim hs2 with rfl | ⟨s2, rfl, _⟩
      · exact List.nil_prefix
      · exact absurd rfl (hc '<' (List.mem_cons_self _ _))

/-- A marker-shaped prefix of the scan output after a raw character maps
back to a marker-shaped prefix of the text (markers contain `'<'` only
as their first character). -/
theorem escR_no_new_marker {t2 o2 : List Char} (h2 : EscR t2 o2) (m : List Char)
    (hm : '<' ∉ m.drop 1) (c : Char) (hp : m <+: c :: o2) : m <+: c :: t2 := by
  rcases prefix_cons_elim hp with rfl | ⟨m2, rfl, hm2⟩
  · exact List.nil_prefix
  · have hm2c : ∀ x ∈ m2, x ≠ '<' := by
      intro x hx hx2
      subst hx2
      exact hm (by simpa using hx)
    exact List.cons_prefix_cons.mpr ⟨rfl, escR_safe_chars h2 m2 hm2 hm2c⟩

theorem markerFree_within {s t : List Char} (hinf : s <:+: t) (h : markerFree t) :
    markerFree s :=
  ⟨fun hc => h.1 (hc.trans hinf), fun hc => h.2 (hc.trans hinf)⟩

theorem stripNowiki_open (s : List Char) :
    stripNowiki (nwOpen ++ s) = stripNowiki s := rfl

theorem stripNowiki_close (s : List Char) :
    stripNowiki (nwClose ++ s) = stripNowiki s := rfl

set_option maxHeartbeats 1600000 in
theorem stripNowiki_cons (c : Char) (rest : List Char)
    (h1 : ¬ (nwClose <+: c :: rest)) (h2 : ¬ (nwOpen <+: c :: rest)) :
    stripNowiki (c :: rest) = c :: stripNowiki rest := by
  rw [stripNowiki.eq_def]
  split
  · rename_i r heq
    exact absurd (⟨r, by rw [heq]; rfl⟩ : nwClose <+: c :: rest) h1
  · rename_i r heq
    exact absurd (⟨r, by rw [heq]; rfl⟩ : nwOpen <+: c :: rest) h2
  · rename_i c2 r2 heq
    injection heq with hc hr
    rw [hc, hr]
  · rename_i heq
    exact absurd heq (by simp)

theorem stripNowiki_append (x y : List Char)
    (hsafe : ∀ x1 x2, x = x1 ++ x2 → x2 ≠ [] →
      ¬ (nwClose <+: x2 ++ y) ∧ ¬ (nwOpen <+: x2 ++ y)) :
    stripNowiki (x ++ y) = x ++ stripNowiki y := by
  induction x with
  | nil => rfl
  | cons c x ih =>
      have h0 := hsafe [] (c :: x) rfl (by simp)
      rw [List.cons_append, stripNowiki_cons c (x ++ y) h0.1 h0.2,
        ih (fun x1 x2 hx hne => hsafe (c :: x1) x2 (by rw [hx, List.cons_append]) hne),
        List.cons_append]

/-- A marker cannot start strictly inside a segment of marker-free text
and run over into the closing marker that follows it: markers contain
`'<'` only as their first character. -/
theorem markerFree_no_straddle {seg tail2 : List Char} (m rest2 : List Char)
    (hm : m = nwOpen ∨ m = nwClose)
    (hMF : markerFree (seg ++ tail2))
    (hr : rest2.head? = some '<')
    (x1 x2 : List Char) (hx : seg = x1 ++ x2) (hne : x2 ≠ [])
    (hp : m <+: x2 ++ rest2) : False := by
  have hx2seg : x2 <:+: seg := ⟨x1, [], by rw [hx]; simp⟩
  have hseg : seg <:+: seg ++ tail2 := ( List.prefix_append seg tail2).isInfix
  rcases List.prefix_or_prefix_of_prefix hp ( List.prefix_append x2 rest2) with hA | hB
  · have hin : m <:+: seg ++ tail2 := (hA.isInfix.trans hx2seg).trans hseg
    rcases hm with rfl | rfl
    · exact hMF.1 hin
    · exact hMF.2 hin
  · obtain ⟨m2, hm2⟩ := hB
    have hm2p : m2 <+: rest2 := by
      rw [← hm2] at hp
      exact ( List.prefix_append_right_inj x2).mp hp
    cases m2 with
    | nil =>
        have hmx : m = x2 := by rw [← hm2]; simp
        have hin : m <:+: seg ++ tail2 := by rw [hmx]; exact hx2seg.trans hseg
        rcases hm with rfl | rfl
        · exact hMF.1 hin
        · exact hMF.2 hin
    | cons d m3 =>
        have hd : d = '<' := by
          obtain ⟨u, hu⟩ := hm2p
          cases rest2 with
          | nil => simp at hr
          | cons r0 rs =>
              injection hu with hu1 hu2
              simp only [List.head?_cons, Option.some.injEq] at hr
              rw [hu1, hr]
        have hlt : '<' ∈ m.drop 1 := by
          rw [← hm2]
          cases x2 with
          | nil => exact absurd rfl hne
          | cons e x3 =>
              subst hd
              simp
        rcases hm with rfl | rfl
        · exact absurd hlt (by decide)
        · exact absurd hlt (by decide)

/-- Discarding the markers from any output of the escape scan on a
marker-free text recovers the text exactly. -/
theorem escR_strip {t o : List Char} (h : EscR t o) (hMF : markerFree t) :
    stripNowiki o = t := by
  induction h with
  | nil => rfl
  | raw c t2 o2 h2 ih =>
      have hMF2 : markerFree t2 := markerFree_within ( List.suffix_cons c t2).isInfix hMF
      have hcl : ¬ (nwClose <+: c :: o2) := by
        intro hp
        exact hMF.2 (escR_no_new_marker h2 nwClose (by decide) c hp).isInfix
      have hop : ¬ (nwOpen <+: c :: o2) := by
        intro hp
        exact hMF.1 (escR_no_new_marker h2 nwOpen (by decide) c hp).isInfix
      rw [stripNowiki_cons c o2 hcl hop, ih hMF2]
  | wrap seg t2 o2 h2 ih =>
      have hMF2 : markerFree t2 :=
        markerFree_within ( List.suffix_append seg t2).isInfix hMF
      have hr : (nwClose ++ o2).head? = some '<' := rfl
      have hsafe : ∀ x1 x2, seg = x1 ++ x2 → x2 ≠ [] →
          ¬ (nwClose <+: x2 ++ (nwClose ++ o2)) ∧ ¬ (nwOpen <+: x2 ++ (nwClose ++ o2)) :=
        fun x1 x2 hx hne =>
          ⟨fun hp => markerFree_no_straddle nwClose (nwClose ++ o2) (Or.inr rfl) hMF hr x1 x2 hx hne hp,
           fun hp => markerFree_no_straddle nwOpen (nwClose ++ o2) (Or.inl rfl) hMF hr x1 x2 hx hne hp⟩
      rw [stripNowiki_open, stripNowiki_append seg (nwClose ++ o2) hsafe,
        stripNowiki_close, ih hMF2]

set_option maxHeartbeats 1600000 in
theorem replaceNW_cons (c : Char) (rest : List Char)
    (h1 : ¬ (nwClose <+: c :: rest)) (h2 : ¬ (nwOpen <+: c :: rest)) :
    replaceNowikiEntities (c :: rest) = c :: replaceNowikiEntities rest := by
  rw [replaceNowikiEntities.eq_def]
  split
  · rename_i r heq
    exact absurd (⟨r, by rw [heq]; rfl⟩ : nwClose <+: c :: rest) h1
  · rename_i r heq
    exact absurd (⟨r, by rw [heq]; rfl⟩ : nwOpen <+: c :: rest) h2
  · rename_i c2 r2 heq
    injection heq with hc hr
    rw [hc, hr]
  · rename_i heq
    exact absurd heq (by simp)

/-- The entity-escaping pass is the identity on marker-free strings. -/
theorem replaceNW_id (s : List Char) (h : markerFree s) :
    replaceNowikiEntities s = s := by
  induction s with
  | nil => rfl
  | cons c rest ih =>
      have h1 : ¬ (nwClose <+: c :: rest) := fun hp => h.2 hp.isInfix
      have h2 : ¬ (nwOpen <+: c :: rest) := fun hp => h.1 hp.isInfix
      rw [replaceNW_cons c rest h1 h2,
        ih (markerFree_within ( List.suffix_cons c rest).isInfix h)]

theorem wrap_empty (inNL : Bool) (text : List Char) (es : EscSt)
    (h : es.accum = []) : wrapNonTextTokens inNL text es = (es, false) := by
  unfold wrapNonTextTokens
  rw [h]

theorem substrJS_natural (s : List Char) (p l : Nat) :
    substrJS s (p : Int) (l : Int) = (s.drop p).take l := by
  unfold substrJS
  have h1 : ¬ ((p : Int) < 0) := by omega
  by_cases hl : l = 0
  · subst hl; simp
  · have h2 : ¬ ((l : Int) ≤ 0) := by omega
    simp [h1, h2]

theorem prefix_drop_split {s text : List Char} {p : Nat}
    (h : s <+: text.drop p) : text.drop p = s ++ text.drop (p + s.length) := by
  obtain ⟨u, hu⟩ := h
  have h2 : u = text.drop (p + s.length) := by
    have h3 : (text.drop p).drop s.length = u := by
      rw [← hu, List.drop_left]
    rw [List.drop_drop] at h3
    exact h3.symm
  rw [← hu, h2]

theorem drop_take_append (text : List Char) (p q : Nat) (hpq : p ≤ q) :
    text.drop p = (text.drop p).take (q - p) ++ text.drop q := by
  conv_lhs => rw [← List.take_append_drop (q - p) (text.drop p)]
  congr 1
  rw [List.drop_drop]
  congr 1
  omega

/-- Scanning a run of non-flushing tokens only grows the pending
accumulation (lines 198-207 of part_000 always fall to the `else`
branch for such tokens). -/
theorem escapeScanGo_accum (inNL : Bool) (text : List Char) :
    ∀ (run0 rest : List Tk) (es : EscSt), (∀ t ∈ run0, nonFlushTk t = true) →
    escapeScanGo inNL text none (run0 ++ rest) es =
      escapeScanGo inNL text none rest { es with accum := es.accum ++ run0 } := by
  intro run0
  induction run0 with
  | nil =>
      intro rest es _
      simp
  | cons t run ih =>
      intro rest es hnf
      have ht := hnf t (List.mem_cons_self t run)
      cases t with
      | text s => exact absurd ht (by simp [nonFlushTk])
      | nl d => exact absurd ht (by simp [nonFlushTk])
      | eof => exact absurd ht (by simp [nonFlushTk])
      | tag n attribs da =>
          have hgc : gcSrcTag (Tk.tag n attribs da) = false := by
            simpa [nonFlushTk] using ht
          rw [List.cons_append]
          simp only [escapeScanGo, hgc, Bool.false_eq_true, if_false]
          rw [ih rest _ (fun u hu => hnf u (List.mem_cons_of_mem _ hu))]
          simp
      | endTag n attribs da =>
          rw [List.cons_append]
          simp only [escapeScanGo]
          rw [ih rest _ (fun u hu => hnf u (List.mem_cons_of_mem _ hu))]
          simp
      | selfClosing n attribs da =>
          rw [List.cons_append]
          simp only [escapeScanGo]
          rw [ih rest _ (fun u hu => hnf u (List.mem_cons_of_mem _ hu))]
          simp
      | comment s =>
          rw [List.cons_append]
          simp only [escapeScanGo]
          rw [ih rest _ (fun u hu => hnf u (List.mem_cons_of_mem _ hu))]
          simp

/-- Flushing a pending run whose first and last tsr both carry the
contract offsets wraps exactly the text slice `[p, q)` (after the
non-newline-context compensation of lines 116-118 and 131-133),
entity-escaped, and throws nothing. -/
theorem wrap_run (inNL : Bool) (text : List Char) (es : EscSt)
    (p q : Nat) (b1 a2 : Int)
    (hne : es.accum ≠ [])
    (hfirst : headTsr es.accum = some (((p + (if inNL then 0 else 1) : Nat) : Int), b1))
    (hlast : lastTsr es.accum = some (a2, ((q + (if inNL then 0 else 1) : Nat) : Int)))
    (hpq : p ≤ q) :
    (wrapNonTextTokens inNL text es).1.outTexts =
        es.outTexts ++ [nwOpen, replaceNowikiEntities ((text.drop p).take (q - p)), nwClose] ∧
    (wrapNonTextTokens inNL text es).1.accum = [] ∧
    (wrapNonTextTokens inNL text es).2 = false := by
  have hqp : ((q : Int) - (p : Int)) = ((q - p : Nat) : Int) := by omega
  cases hnl : inNL with
  | true =>
      unfold wrapNonTextTokens
      cases hacc : es.accum with
      | nil => exact absurd hacc hne
      | cons first restAcc =>
          rw [hacc] at hfirst hlast
          rw [hnl] at hfirst hlast
          simp only [headTsr] at hfirst
          simp only [lastTsr,
            List.getLast?_eq_getLast (first :: restAcc) (List.cons_ne_nil first restAcc)] at hlast
          dsimp only
          rw [hfirst, hlast]
          norm_num
          rw [hqp, substrJS_natural]
  | false =>
      unfold wrapNonTextTokens
      cases hacc : es.accum with
      | nil => exact absurd hacc hne
      | cons first restAcc =>
          rw [hacc] at hfirst hlast
          rw [hnl] at hfirst hlast
          simp only [headTsr] at hfirst
          simp only [lastTsr,
            List.getLast?_eq_getLast (first :: restAcc) (List.cons_ne_nil first restAcc)] at hlast
          dsimp only
          rw [hfirst, hlast]
          norm_num
          rw [hqp, substrJS_natural]

/-- The escape scan on a token stream that tiles a marker-free text
from position `p` produces output pieces whose concatenation is the
text from `p` on, with the non-text stretches wrapped in literal
`<nowiki>...</nowiki>` markers (strong induction on the stream
length). -/
theorem escWF_scan (inNL : Bool) (text : List Char) (hMF : markerFree text) :
    ∀ (n : Nat) (toks : List Tk) (p : Nat) (es : EscSt),
      toks.length ≤ n →
      EscWF (if inNL then 0 else 1) text p toks →
      es.accum = [] →
      ∃ o : List (List Char),
        (escapeScanGo inNL text none toks es).outTexts = es.outTexts ++ o ∧
        EscR (text.drop p) o.flatten := by
  intro n
  induction n with
  | zero =>
      intro toks p es hlen hwf hacc
      exact absurd (List.length_eq_zero.mp (Nat.le_zero.mp hlen)) (escWF_ne_nil hwf)
  | succ n ih =>
      intro toks p es hlen hwf hacc
      cases hwf with
      | eof =>
          refine ⟨[], ?_, ?_⟩
          · simp only [escapeScanGo]
            rw [wrap_empty inNL text es hacc]
            simp [escapeScanGo]
          · rw [List.drop_length]
            simpa using EscR.nil
      | str _ s rest hpre hrest =>
          have hlen2 : rest.length ≤ n := by simp at hlen; omega
          obtain ⟨o2, ho2, hesc2⟩ := ih rest (p + s.length)
            { es with outTexts := es.outTexts ++ [s], cursor := es.cursor + (s.length : Int) }
            hlen2 hrest hacc
          refine ⟨[s] ++ o2, ?_, ?_⟩
          · simp only [escapeScanGo]
            rw [wrap_empty inNL text es hacc]
            dsimp only
            simp only [Bool.false_eq_true, if_false]
            rw [ho2]
            simp
          · rw [prefix_drop_split hpre]
            simpa using escR_raws s hesc2
      | nlc _ d rest hc hrest =>
          have hlen2 : rest.length ≤ n := by simp at hlen; omega
          obtain ⟨o2, ho2, hesc2⟩ := ih rest (p + 1)
            { es with outTexts := es.outTexts ++ [['\n']], cursor := es.cursor + 1 }
            hlen2 hrest hacc
          refine ⟨[['\n']] ++ o2, ?_, ?_⟩
          · simp only [escapeScanGo]
            rw [wrap_empty inNL text es hacc]
            dsimp only
            simp only [Bool.false_eq_true, if_false]
            rw [ho2]
            simp
          · rw [hc]
            simpa using EscR.raw '\n' _ _ hesc2
      | run _ q run0 rest b1 a2 hne hfirst hlast hnf hpq hflush hrest =>
          rw [escapeScanGo_accum inNL text run0 rest es hnf]
          have hacc2 : ({ es with accum := es.accum ++ run0 } : EscSt).accum = run0 := by
            simp [hacc]
          have hne2 : ({ es with accum := es.accum ++ run0 } : EscSt).accum ≠ [] := by
            rw [hacc2]; exact hne
          have hfirst2 : headTsr ({ es with accum := es.accum ++ run0 } : EscSt).accum =
              some (((p + (if inNL then 0 else 1) : Nat) : Int), b1) := by
            rw [hacc2]; exact hfirst
          have hlast2 : lastTsr ({ es with accum := es.accum ++ run0 } : EscSt).accum =
              some (a2, ((q + (if inNL then 0 else 1) : Nat) : Int)) := by
            rw [hacc2]; exact hlast
          have hrun0len : 1 ≤ run0.length := List.length_pos.mpr hne
          obtain ⟨hw1, hw2, hw3⟩ :=
            wrap_run inNL text { es with accum := es.accum ++ run0 } p q b1 a2 hne2 hfirst2 hlast2 hpq
          have hMFs : markerFree ((text.drop p).take (q - p)) :=
            markerFree_within (( List.take_prefix (q - p) (text.drop p)).isInfix.trans
              ( List.drop_suffix p text).isInfix) hMF
          rw [replaceNW_id _ hMFs] at hw1
          cases hrest with
          | eof =>
              refine ⟨[nwOpen, (text.drop p).take (text.length - p), nwClose], ?_, ?_⟩
              · simp only [escapeScanGo]
                rw [hw3]
                simp only [Bool.false_eq_true, if_false]
                rw [hw1]
              · nth_rewrite 1 [drop_take_append text p text.length hpq]
                rw [List.drop_length]
                simpa using
                  EscR.wrap ((text.drop p).take (text.length - p)) [] [] EscR.nil
          | str _ s2 rest2 hpre2 hrest2 =>
              have hlen2 : rest2.length ≤ n := by
                simp [List.length_append] at hlen
                omega
              obtain ⟨o2, ho2, hesc2⟩ := ih rest2 (q + s2.length)
                { (wrapNonTextTokens inNL text { es with accum := es.accum ++ run0 }).1 with
                  outTexts := (wrapNonTextTokens inNL text
                    { es with accum := es.accum ++ run0 }).1.outTexts ++ [s2],
                  cursor := (wrapNonTextTokens inNL text
                    { es with accum := es.accum ++ run0 }).1.cursor + (s2.length : Int) }
                hlen2 hrest2 hw2
              refine ⟨[nwOpen, (text.drop p).take (q - p), nwClose, s2] ++ o2, ?_, ?_⟩
              · simp only [escapeScanGo]
                rw [hw3]
                simp only [Bool.false_eq_true, if_false]
                rw [ho2, hw1]
                simp
              · nth_rewrite 1 [drop_take_append text p q hpq]
                rw [prefix_drop_split hpre2]
                simpa using
                  EscR.wrap ((text.drop p).take (q - p)) _ _ (escR_raws s2 hesc2)
          | nlc _ d2 rest2 hc2 hrest2 =>
              have hlen2 : rest2.length ≤ n := by
                simp [List.length_append] at hlen
                omega
              obtain ⟨o2, ho2, hesc2⟩ := ih rest2 (q + 1)
                { (wrapNonTextTokens inNL text { es with accum := es.accum ++ run0 }).1 with
                  outTexts := (wrapNonTextTokens inNL text
                    { es with accum := es.accum ++ run0 }).1.outTexts ++ [['\n']],
                  cursor := (wrapNonTextTokens inNL text
                    { es with accum := es.accum ++ run0 }).1.cursor + 1 }
                hlen2 hrest2 hw2
              refine ⟨[nwOpen, (text.drop p).take (q - p), nwClose, ['\n']] ++ o2, ?_, ?_⟩
              · simp only [escapeScanGo]
                rw [hw3]
                simp only [Bool.false_eq_true, if_false]
                rw [ho2, hw1]
                simp
              · nth_rewrite 1 [drop_take_append text p q hpq]
                rw [hc2]
                simpa using
                  EscR.wrap ((text.drop p).take (q - p)) _ _ (EscR.raw '\n' _ _ hesc2)
          | run _ q3 run3 rest3 b13 a23 hne3 hfirst3 hlast3 hnf3 hpq3 hflush3 hrest3 =>
              cases hrun3 : run3 with
              | nil => exact absurd hrun3 hne3
              | cons t3 r3 =>
                  have hnf0 := hnf3 t3 (by rw [hrun3]; exact List.mem_cons_self _ _)
                  rw [hrun3] at hflush
                  cases t3 with
                  | text s => simp [nonFlushTk] at hnf0
                  | nl d => simp [nonFlushTk] at hnf0
                  | eof => simp [nonFlushTk] at hnf0
                  | tag nn aa dd => simp [flushHead] at hflush
                  | endTag nn aa dd => simp [flushHead] at hflush
                  | selfClosing nn aa dd => simp [flushHead] at hflush
                  | comment ss => simp [flushHead] at hflush

theorem replaceNLSpace_cons_ne (c : Char) (r : List Char) (hc : ¬ c = '\n') :
    replaceNLSpace (c :: r) = c :: replaceNLSpace r := by
  rw [replaceNLSpace.eq_def]
  split
  · rename_i heq
    exact absurd heq (by simp)
  · rename_i r2 heq
    injection heq with h1 h2
    exact absurd h1 hc
  · rename_i c2 r2 heq
    injection heq with h1 h2
    rw [h1, h2]

/-- The single-line replacement pass leaves no literal newline. -/
theorem replaceNLSpace_no_nl (l : List Char) : '\n' ∉ replaceNLSpace l := by
  induction l with
  | nil => simp [replaceNLSpace]
  | cons c r ih =>
      by_cases hc : c = '\n'
      · subst hc
        simp only [replaceNLSpace, List.mem_cons]
        rintro (h | h)
        · exact absurd h.symm (by decide)
        · exact ih h
      · rw [replaceNLSpace_cons_ne c r hc]
        simp only [List.mem_cons]
        rintro (h | h)
        · exact hc h.symm
        · exact ih h

/-- While `singleLineMode` is positive at the flush, every chunk the
common path emits is the buffered newlines followed by newline-free
content (`res.replace(/\n/g,' ')`, line 1016); the pre-switch chunks
are passed through untouched. -/
theorem serializeTokenCommon_single_line (dropContent0 : Bool) (handler : SHandler)
    (n : String) (sA : SState) (res : List Char) (preChunks : List (List Char))
    (hmode : sA.singleLineMode ≠ 0) :
    ∀ chunk ∈ (serializeTokenCommon dropContent0 handler n sA res preChunks).2,
      chunk ∈ preChunks ∨
        ∃ m r, chunk = List.replicate m '\n' ++ r ∧ '\n' ∉ r := by
  intro chunk hchunk
  unfold serializeTokenCommon at hchunk
  dsimp only at hchunk
  rw [if_pos hmode] at hchunk
  split at hchunk
  · split at hchunk
    · dsimp only at hchunk
      rcases List.mem_append.mp hchunk with h | h
      · exact Or.inl h
      · rw [List.mem_singleton] at h
        exact Or.inr ⟨_, _, h, replaceNLSpace_no_nl _⟩
    · dsimp only at hchunk
      exact Or.inl hchunk
  · dsimp only at hchunk
    exact Or.inl hchunk

/-- C4, amended: while single-line mode is active, every chunk the
serializer emits for a string or newline token is the buffered newline
flush followed by newline-free content: the token's own would-be
newlines are emitted as spaces (lines 1015-1017), while previously
buffered newlines still flush (lines 1002-1004).  (The claim's
subtree-wide containment is false: a nested list opened inside a list
item first leaves single-line mode, see the counterexample.) -/
theorem c4_single_line_collapse (tokenize : List Char → List Tk) (s : SState)
    (t : Tk) (hmode : s.singleLineMode ≠ 0)
    (ht : (∃ str, t = Tk.text str) ∨ (∃ d, t = Tk.nl d)) :
    ∀ chunk ∈ (serializeToken tokenize s t).2,
      ∃ m r, chunk = List.replicate m '\n' ++ r ∧ '\n' ∉ r := by
  rcases ht with ⟨str, rfl⟩ | ⟨d, rfl⟩
  · intro chunk hchunk
    unfold serializeToken at hchunk
    dsimp only at hchunk
    rcases serializeTokenCommon_single_line _ _ _
        { s with prevToken := s.curToken, curToken := some (Tk.text str) } _ _
        hmode chunk hchunk with h | h
    · exact absurd h (List.not_mem_nil chunk)
    · exact h
  · intro chunk hchunk
    unfold serializeToken at hchunk
    dsimp only at hchunk
    rcases serializeTokenCommon_single_line _ _ _
        { s with prevToken := s.curToken, curToken := some (Tk.nl d) } _ _
        hmode chunk hchunk with h | h
    · exact absurd h (List.not_mem_nil chunk)
    · exact h

/-- A run of `k` characters is a prefix of a run of `A ≥ k` of the same
character followed by anything. -/
theorem replicate_prefix_append (k A : Nat) (c : Char) (r : List Char)
    (h : k ≤ A) : List.replicate k c <+: List.replicate A c ++ r :=
  ⟨List.replicate (A - k) c ++ r, by
    rw [← List.append_assoc, ← List.replicate_add, Nat.add_sub_cancel' h]⟩

/-- When the previously emitted tag token is a close tag of the same
name and the handler requests separator newlines, a miss of the
pair-rule guard (line 969) means the buffer already holds at least the
requested count. -/
theorem pairHitB_miss_ge (handler : SHandler) (tokenName : String)
    (prevTag : Option Tk) (attribs2 : List KV) (da2 : DataAttribs) (a : Nat)
    (hpair : handler.pairSepNLCount ≠ 0)
    (hprev : prevTag = some (Tk.endTag tokenName attribs2 da2))
    (hm : pairHitB handler tokenName prevTag a = false) :
    handler.pairSepNLCount ≤ a := by
  by_contra hlt
  push_neg at hlt
  have htrue : pairHitB handler tokenName prevTag a = true := by
    unfold pairHitB
    rw [hprev]
    simp [hpair, hlt]
  rw [htrue] at hm
  exact absurd hm (by decide)

/-- The pair rule on the common path (lines 967-974): under an active
guard, with the previously emitted tag token a close tag of the same
element name and the handler requesting separator newlines, the token
leaves at least the requested newline count behind: either buffered in
the post-state `availableNewlineCount` (no flush), or at the head of
the emitted chunk (the handler output flushed the buffer, lines
996-1004). -/
theorem serializeTokenCommon_pair (dropContent0 : Bool) (handler : SHandler)
    (tokenName : String) (sA : SState) (res : List Char)
    (preChunks : List (List Char)) (attribs2 : List KV) (da2 : DataAttribs)
    (hguard : (!dropContent0 || !sA.dropContent) = true)
    (hpair : handler.pairSepNLCount ≠ 0)
    (hprev : sA.prevTagToken = some (Tk.endTag tokenName attribs2 da2)) :
    handler.pairSepNLCount ≤
      (serializeTokenCommon dropContent0 handler tokenName sA res
        preChunks).1.availableNewlineCount ∨
    ∃ out, (serializeTokenCommon dropContent0 handler tokenName sA res
        preChunks).2 = preChunks ++ [out] ∧
      List.replicate handler.pairSepNLCount '\n' <+: out := by
  unfold serializeTokenCommon
  rw [if_pos hguard]
  dsimp only
  cases hB : pairHitB handler tokenName sA.prevTagToken
      (sA.availableNewlineCount + (stripRes res).1) with
  | false =>
      have hge := pairHitB_miss_ge handler tokenName sA.prevTagToken
        attribs2 da2 _ hpair hprev hB
      simp only [hB, Bool.false_eq_true, if_false]
      split
      · right
        dsimp only
        have h0 : ¬ (sA.availableNewlineCount + (stripRes res).1 = 0) := by
          omega
        rw [decide_eq_false h0]
        simp only [Bool.and_false, Bool.false_eq_true, if_false]
        exact ⟨_, rfl, replicate_prefix_append _ _ _ _ hge⟩
      · left
        dsimp only
        omega
  | true =>
      simp only [hB, eq_self_iff_true, if_true]
      split
      · right
        dsimp only
        rw [decide_eq_false hpair]
        simp only [Bool.and_false, Bool.false_eq_true, if_false]
        exact ⟨_, rfl, replicate_prefix_append _ _ _ _ (Nat.le_refl _)⟩
      · left
        dsimp only
        exact Nat.le_add_right _ _

/-- `_listHandler` never touches `prevTagToken` (lines 238-278: it only
updates `listStack` and decrements `singleLineMode`). -/
theorem listHandler_prevTag (b : List Char) (s0 : SState) (t : Tk) :
    (listHandler b s0 t).1.prevTagToken = s0.prevTagToken := by
  unfold listHandler
  dsimp only
  split <;> split <;> first | rfl | (split <;> rfl)

/-- `_listItemHandler` never touches `prevTagToken` (lines 285-337: it
only updates the top `listStack` entry). -/
theorem listItemHandler_prevTag (b : List Char) (s0 : SState) (t : Tk) :
    (listItemHandler b s0 t).1.prevTagToken = s0.prevTagToken := by
  unfold listItemHandler
  dsimp only
  split
  · rfl
  · split
    · rfl
    · rfl

/-- Dispatch of an open tag token through a start handler with a handle
function that preserves `prevTagToken`: the pair-rule guarantee of the
common path lifts to `_serializeToken` (`applyMut` only overrides
`startsNewline`/`newlineTransparent`, so the handler the common path
sees keeps the registry `pairSepNLCount`). -/
theorem serializeToken_pair_handle (tokenize : List Char → List Tk)
    (s : SState) (name : String) (attribs attribs2 : List KV)
    (da da2 : DataAttribs) (h : SHandler)
    (f : SState → Tk → SState × List Char × HMut)
    (hh : getTokenHandler
        { s with prevToken := s.curToken,
                 curToken := some (Tk.tag name attribs da) }
        (Tk.tag name attribs da) = h)
    (hig : h.ignore = false)
    (hf : h.handleF = some f)
    (hpair : h.pairSepNLCount ≠ 0)
    (hkeep : ∀ s' t, (f s' t).1.prevTagToken = s'.prevTagToken)
    (hdrop : s.dropContent = false)
    (hprev : s.currTagToken = some (Tk.endTag name attribs2 da2)) :
    h.pairSepNLCount ≤
      (serializeToken tokenize s (Tk.tag name attribs da)).1.availableNewlineCount ∨
    ∃ out, (serializeToken tokenize s (Tk.tag name attribs da)).2 = [out] ∧
      List.replicate h.pairSepNLCount '\n' <+: out := by
  unfold serializeToken
  dsimp only [Tk.nameStr]
  rw [hh, hig]
  simp only [Bool.false_eq_true, if_false]
  rw [hf]
  dsimp only
  have key : ∀ (m : HMut) (sA : SState) (res : List Char),
      sA.prevTagToken = some (Tk.endTag name attribs2 da2) →
      ((applyMut h m).pairSepNLCount ≤
        (serializeTokenCommon s.dropContent (applyMut h m) name sA
          res []).1.availableNewlineCount ∨
       ∃ out, (serializeTokenCommon s.dropContent (applyMut h m) name sA
          res []).2 = [out] ∧
         List.replicate (applyMut h m).pairSepNLCount '\n' <+: out) := by
    intro m sA res hpv
    have hres := serializeTokenCommon_pair s.dropContent (applyMut h m) name
      sA res [] attribs2 da2 (by rw [hdrop]; rfl) hpair hpv
    simpa using hres
  refine key _ _ _ ?_
  rw [hkeep]
  exact hprev

/-- Dispatch of an open tag token through a start handler without a
handle function (such as the `p` registry entry): the pair-rule
guarantee of the common path lifts to `_serializeToken`. -/
theorem serializeToken_pair_nof (tokenize : List Char → List Tk)
    (s : SState) (name : String) (attribs attribs2 : List KV)
    (da da2 : DataAttribs) (h : SHandler)
    (hh : getTokenHandler
        { s with prevToken := s.curToken,
                 curToken := some (Tk.tag name attribs da) }
        (Tk.tag name attribs da) = h)
    (hig : h.ignore = false)
    (hf : h.handleF = none)
    (hpair : h.pairSepNLCount ≠ 0)
    (hdrop : s.dropContent = false)
    (hprev : s.currTagToken = some (Tk.endTag name attribs2 da2)) :
    h.pairSepNLCount ≤
      (serializeToken tokenize s (Tk.tag name attribs da)).1.availableNewlineCount ∨
    ∃ out, (serializeToken tokenize s (Tk.tag name attribs da)).2 = [out] ∧
      List.replicate h.pairSepNLCount '\n' <+: out := by
  unfold serializeToken
  dsimp only [Tk.nameStr]
  rw [hh, hig]
  simp only [Bool.false_eq_true, if_false]
  rw [hf]
  dsimp only
  have key : ∀ sA : SState,
      sA.prevTagToken = some (Tk.endTag name attribs2 da2) →
      (h.pairSepNLCount ≤
        (serializeTokenCommon s.dropContent h name sA
          [] []).1.availableNewlineCount ∨
       ∃ out, (serializeTokenCommon s.dropContent h name sA
          [] []).2 = [out] ∧
         List.replicate h.pairSepNLCount '\n' <+: out) := by
    intro sA hpv
    have hres := serializeTokenCommon_pair s.dropContent h name
      sA [] [] attribs2 da2 (by rw [hdrop]; rfl) hpair hpv
    simpa using hres
  refine key _ ?_
  exact hprev

/-- C3, amended: whenever the Serializer Core processes an open tag
token whose resolved start handler has `pairSepNLCount` set — the list
containers `ul`/`ol`/`dl` (2), the list items `li`/`dt`/`dd` (1), and
`p` outside single-line mode (2), all non-HTML-syntax — the previously
emitted tag token is a close tag of the same element name, and
content-dropping is inactive, then the token leaves at least the
handler's `pairSepNLCount` newlines behind: either the post-state
`availableNewlineCount` is at least that count, or the handler's own
output flushed the buffer and the emitted chunk begins with at least
that many newline characters.  In particular serializing the DOM
`<p>x</p><p>y</p>` yields exactly `x\n\ny`.  (While content-dropping is
active the whole post-switch block including the pair rule is skipped,
see the counterexample.) -/
theorem c3_pair_separator_newlines
    (tokenize : List Char → List Tk) (s : SState) (name : String)
    (attribs attribs2 : List KV) (da da2 : DataAttribs)
    (hstx : da.stx ≠ some "html")
    (hname : name ∈ (["ul", "ol", "dl", "li", "dt", "dd"] : List String) ∨
             (name = "p" ∧ s.singleLineMode = 0))
    (hdrop : s.dropContent = false)
    (hprev : s.currTagToken = some (Tk.endTag name attribs2 da2)) :
    ((getTokenHandler
        { s with prevToken := s.curToken,
                 curToken := some (Tk.tag name attribs da) }
        (Tk.tag name attribs da)).pairSepNLCount ≠ 0 ∧
     ((getTokenHandler
         { s with prevToken := s.curToken,
                  curToken := some (Tk.tag name attribs da) }
         (Tk.tag name attribs da)).pairSepNLCount ≤
        (serializeToken tokenize s (Tk.tag name attribs da)).1.availableNewlineCount ∨
      ∃ out, (serializeToken tokenize s (Tk.tag name attribs da)).2 = [out] ∧
        List.replicate (getTokenHandler
          { s with prevToken := s.curToken,
                   curToken := some (Tk.tag name attribs da) }
          (Tk.tag name attribs da)).pairSepNLCount '\n' <+: out)) ∧
    (serializeDOM pegTokenize {} {}
      (DomNode.elem "body" [] {}
        [DomNode.elem "p" [] {} [DomNode.dtext ['x']],
         DomNode.elem "p" [] {} [DomNode.dtext ['y']]])).2 = "x\n\ny".toList := by
  refine ⟨?_, by decide⟩
  rcases hname with hmem | ⟨hp, hsl⟩
  · simp only [List.mem_cons, List.not_mem_nil, or_false] at hmem
    rcases hmem with rfl | rfl | rfl | rfl | rfl | rfl
    · have hh : getTokenHandler
          { s with prevToken := s.curToken,
                   curToken := some (Tk.tag "ul" attribs da) }
          (Tk.tag "ul" attribs da) =
          { startsNewline := true, handleF := some (listHandler ['*']),
            pairSepNLCount := 2, newlineTransparent := true } := by
        unfold getTokenHandler
        simp [tagHandlers, Tk.da, Tk.nameStr, hstx]
      rw [hh]
      exact ⟨by decide,
        serializeToken_pair_handle tokenize s "ul" attribs attribs2 da da2 _ _
          hh rfl rfl (by decide) (fun s' t => listHandler_prevTag ['*'] s' t)
          hdrop hprev⟩
    · have hh : getTokenHandler
          { s with prevToken := s.curToken,
                   curToken := some (Tk.tag "ol" attribs da) }
          (Tk.tag "ol" attribs da) =
          { startsNewline := true, handleF := some (listHandler ['#']),
            pairSepNLCount := 2, newlineTransparent := true } := by
        unfold getTokenHandler
        simp [tagHandlers, Tk.da, Tk.nameStr, hstx]
      rw [hh]
      exact ⟨by decide,
        serializeToken_pair_handle tokenize s "ol" attribs attribs2 da da2 _ _
          hh rfl rfl (by decide) (fun s' t => listHandler_prevTag ['#'] s' t)
          hdrop hprev⟩
    · have hh : getTokenHandler
          { s with prevToken := s.curToken,
                   curToken := some (Tk.tag "dl" attribs da) }
          (Tk.tag "dl" attribs da) =
          { startsNewline := true, handleF := some (listHandler []),
            pairSepNLCount := 2 } := by
        unfold getTokenHandler
        simp [tagHandlers, Tk.da, Tk.nameStr, hstx]
      rw [hh]
      exact ⟨by decide,
        serializeToken_pair_handle tokenize s "dl" attribs attribs2 da da2 _ _
          hh rfl rfl (by decide) (fun s' t => listHandler_prevTag [] s' t)
          hdrop hprev⟩
    · have hh : getTokenHandler
          { s with prevToken := s.curToken,
                   curToken := some (Tk.tag "li" attribs da) }
          (Tk.tag "li" attribs da) =
          { handleF := some (listItemHandler []), singleLine := 1,
            pairSepNLCount := 1 } := by
        unfold getTokenHandler
        simp [tagHandlers, Tk.da, Tk.nameStr, hstx]
      rw [hh]
      exact ⟨by decide,
        serializeToken_pair_handle tokenize s "li" attribs attribs2 da da2 _ _
          hh rfl rfl (by decide) (fun s' t => listItemHandler_prevTag [] s' t)
          hdrop hprev⟩
    · have hh : getTokenHandler
          { s with prevToken := s.curToken,
                   curToken := some (Tk.tag "dt" attribs da) }
          (Tk.tag "dt" attribs da) =
          { singleLine := 1, handleF := some (listItemHandler [';']),
            pairSepNLCount := 1, newlineTransparent := true } := by
        unfold getTokenHandler
        simp [tagHandlers, Tk.da, Tk.nameStr, hstx]
      rw [hh]
      exact ⟨by decide,
        serializeToken_pair_handle tokenize s "dt" attribs attribs2 da da2 _ _
          hh rfl rfl (by decide) (fun s' t => listItemHandler_prevTag [';'] s' t)
          hdrop hprev⟩
    · have hh : getTokenHandler
          { s with prevToken := s.curToken,
                   curToken := some (Tk.tag "dd" attribs da) }
          (Tk.tag "dd" attribs da) =
          { singleLine := 1, handleF := some (listItemHandler [':']),
            pairSepNLCount := 1, newlineTransparent := true } := by
        unfold getTokenHandler
        simp [tagHandlers, Tk.da, Tk.nameStr, hstx]
      rw [hh]
      exact ⟨by decide,
        serializeToken_pair_handle tokenize s "dd" attribs attribs2 da da2 _ _
          hh rfl rfl (by decide) (fun s' t => listItemHandler_prevTag [':'] s' t)
          hdrop hprev⟩
  · subst hp
    have hh : getTokenHandler
        { s with prevToken := s.curToken,
                 curToken := some (Tk.tag "p" attribs da) }
        (Tk.tag "p" attribs da) =
        { startsNewline := true, pairSepNLCount := 2 } := by
      unfold getTokenHandler
      simp [tagHandlers, Tk.da, Tk.nameStr, hstx, hsl]
    rw [hh]
    exact ⟨by decide,
      serializeToken_pair_nof tokenize s "p" attribs attribs2 da da2 _
        hh rfl rfl (by decide) hdrop hprev⟩

/-- Witness for the amended C3 theorem: a `<ul>` open tag right after a
`</ul>` close tag, on an empty list stack: the list handler's bullet
output flushes, and the emitted chunk `\n\n*` indeed begins with the
requested two newlines. -/
theorem c3_pair_separator_newlines_witness :
    ((getTokenHandler
        { env := {}, currTagToken := some (Tk.endTag "ul" [] {}),
          curToken := some (Tk.tag "ul" [] {}) }
        (Tk.tag "ul" [] {})).pairSepNLCount ≠ 0 ∧
     ((getTokenHandler
         { env := {}, currTagToken := some (Tk.endTag "ul" [] {}),
           curToken := some (Tk.tag "ul" [] {}) }
         (Tk.tag "ul" [] {})).pairSepNLCount ≤
        (serializeToken pegTokenize
          { env := {}, currTagToken := some (Tk.endTag "ul" [] {}) }
          (Tk.tag "ul" [] {})).1.availableNewlineCount ∨
      ∃ out, (serializeToken pegTokenize
          { env := {}, currTagToken := some (Tk.endTag "ul" [] {}) }
          (Tk.tag "ul" [] {})).2 = [out] ∧
        List.replicate (getTokenHandler
          { env := {}, currTagToken := some (Tk.endTag "ul" [] {}),
            curToken := some (Tk.tag "ul" [] {}) }
          (Tk.tag "ul" [] {})).pairSepNLCount '\n' <+: out)) ∧
    (serializeDOM pegTokenize {} {}
      (DomNode.elem "body" [] {}
        [DomNode.elem "p" [] {} [DomNode.dtext ['x']],
         DomNode.elem "p" [] {} [DomNode.dtext ['y']]])).2 = "x\n\ny".toList :=
  c3_pair_separator_newlines pegTokenize
    { env := {}, currTagToken := some (Tk.endTag "ul" [] {}) }
    "ul" [] [] {} {} (by decide) (Or.inl (by decide)) rfl rfl

/-- Counterexample to C3 as stated: a generated-content span turns on
content-dropping; the following `</p><p>` adjacency matches the pair
rule's guard (`currTagToken` is a `p` close tag and the `p` start
handler has `pairSepNLCount = 2`), yet `availableNewlineCount` stays 0
after the `<p>` open tag, because while dropping, the whole post-switch
block (lines 942-1045), pair rule included, is skipped. -/
theorem c3_counterexample :
    ((serializeTokensGo pegTokenize { env := {} }
        [Tk.tag "span" [⟨"data-mw-gc".toList, "both".toList⟩] { src := some ['S'] },
         Tk.tag "p" [] {}, Tk.endTag "p" [] {}]).1.dropContent = true) ∧
    ((serializeTokensGo pegTokenize { env := {} }
        [Tk.tag "span" [⟨"data-mw-gc".toList, "both".toList⟩] { src := some ['S'] },
         Tk.tag "p" [] {}, Tk.endTag "p" [] {}]).1.currTagToken =
      some (Tk.endTag "p" [] {})) ∧
    (serializeToken pegTokenize
        (serializeTokensGo pegTokenize { env := {} }
          [Tk.tag "span" [⟨"data-mw-gc".toList, "both".toList⟩] { src := some ['S'] },
           Tk.tag "p" [] {}, Tk.endTag "p" [] {}]).1
        (Tk.tag "p" [] {})).1.availableNewlineCount = 0 := by
  refine ⟨?_, ?_, ?_⟩
  · decide
  · decide
  · decide

/-- Witness for the amended C4 theorem: a text token with an internal
newline, serialized in single-line mode, comes out newline-free (the
newline is emitted as a space). -/
theorem c4_single_line_collapse_witness :
    ({ env := {}, singleLineMode := 1 } : SState).singleLineMode ≠ 0 ∧
    (∀ chunk ∈ (serializeToken pegTokenize { env := {}, singleLineMode := 1 }
        (Tk.text ("a\nb".toList))).2,
      ∃ m r, chunk = List.replicate m '\n' ++ r ∧ '\n' ∉ r) ∧
    (serializeToken pegTokenize { env := {}, singleLineMode := 1 }
        (Tk.text ("a\nb".toList))).2 = ["a b".toList] :=
  ⟨by decide,
   c4_single_line_collapse pegTokenize { env := {}, singleLineMode := 1 }
     (Tk.text ("a\nb".toList)) (by decide) (Or.inl ⟨_, rfl⟩),
   by decide⟩

/-- The nested-list token run refuting C4 as stated. -/
def c4Toks : List Tk :=
  [Tk.tag "ul" [] {}, Tk.tag "li" [] {}, Tk.text ['a'],
   Tk.tag "ul" [] {}, Tk.tag "li" [] {}, Tk.text ['b'],
   Tk.endTag "li" [] {}, Tk.endTag "ul" [] {},
   Tk.endTag "li" [] {}, Tk.endTag "ul" [] {}]

/-- Counterexample to C4 as stated: serializing
`<ul><li>a<ul><li>b</li></ul></li></ul>` yields `*a\n**b`, and the
chunk emitted for the nested `<ul>` open tag — a token inside the outer
`li`'s subtree, whose single-line requirement is still active
(`singleLineMode = 1` just before it) — contains a literal newline:
`_listHandler` first leaves single-line mode (lines 245-247), so the
nested list's newline is emitted, not turned into a space. -/
theorem c4_counterexample :
    (serializeTokens pegTokenize {} {} c4Toks).2.flatten = "*a\n**b".toList ∧
    (serializeTokensGo pegTokenize { env := {} } (c4Toks.take 3)).1.singleLineMode = 1 ∧
    (serializeToken pegTokenize
        (serializeTokensGo pegTokenize { env := {} } (c4Toks.take 3)).1
        (Tk.tag "ul" [] {})).2 = [['\n', '*', '*']] := by
  refine ⟨?_, ?_, ?_⟩
  · decide
  · decide
  · decide

/-- C6 (code bug): `$.extend({}, WSP.initialState, ...)` (lines 835,
1053) copies the `listStack` field shallowly, so the "fresh" state's
`listStack` is the module-level array itself; the list context pushed
while serializing a `ul` open tag survives the call, and a subsequent
top-level call starts with the non-empty leftover stack instead of a
fresh one. -/
theorem c6_fresh_state_per_call :
    (serializeTokens pegTokenize {} {} [Tk.tag "ul" [] {}]).1.initialListStack ≠ [] ∧
    (serializeTokensGo pegTokenize
      { env := {},
        listStack := (serializeTokens pegTokenize {} {}
          [Tk.tag "ul" [] {}]).1.initialListStack }
      []).1.listStack ≠ [] := by
  constructor
  · decide
  · decide

/-- C1, amended: for every literal text run that contains no literal
`<nowiki>`/`</nowiki>` marker, passed to the Escaper in a state that is
not inside an indent-pre, and whose re-tokenization satisfies the
tokenizer contract (`EscWF`: string and newline tokens reproduce the
source characters, non-text runs carry exact tsr byte ranges, offset by
the `'_'` prefix outside newline context), discarding the
`<nowiki>...</nowiki>` escape markers from the escaped output yields
exactly the original text, character for character.  (As stated the
claim is false on two counts: a literal marker in the text comes back
entity-escaped, and in indent-pre context the tsr offsets index the
underscore-inserted text while the wrapper slices the original, losing
characters; see the counterexample for both.) -/
theorem c1_escaping_roundtrip (tokenize : List Char → List Tk) (st : SState)
    (text : List Char)
    (hip : st.inIndentPre = false)
    (hMF : markerFree text)
    (hWF : EscWF (if inNewLineContext st then 0 else 1) text 0
      (if inNewLineContext st then tokenize text
       else stripLeadTok (tokenize ('_' :: text)))) :
    stripNowiki (escapeWikiText tokenize st text).res = text := by
  cases hnl : inNewLineContext st with
  | true =>
      rw [hnl] at hWF
      simp only [eq_self_iff_true, if_true] at hWF
      obtain ⟨o, ho, hesc⟩ := escWF_scan true text hMF (tokenize text).length
        (tokenize text) 0 ⟨[], [], 0, 0, false⟩ (Nat.le_refl _) hWF rfl
      unfold escapeWikiText escapeScan
      rw [hnl, hip]
      simp only [eq_self_iff_true, if_true, Bool.false_eq_true, if_false]
      rw [List.drop_zero] at hesc
      have h0 : (⟨[], [], 0, 0, false⟩ : EscSt).outTexts ++ o = o := by simp
      rw [h0] at ho
      rw [ho]
      exact escR_strip hesc hMF
  | false =>
      rw [hnl] at hWF
      simp only [Bool.false_eq_true, if_false] at hWF
      obtain ⟨o, ho, hesc⟩ := escWF_scan false text hMF
        (stripLeadTok (tokenize ('_' :: text))).length
        (stripLeadTok (tokenize ('_' :: text))) 0 ⟨[], [], 0, 0, false⟩
        (Nat.le_refl _) hWF rfl
      unfold escapeWikiText escapeScan
      rw [hnl, hip]
      simp only [Bool.false_eq_true, if_false]
      rw [List.drop_zero] at hesc
      have h0 : (⟨[], [], 0, 0, false⟩ : EscSt).outTexts ++ o = o := by simp
      rw [h0] at ho
      rw [ho]
      exact escR_strip hesc hMF

/-- Witness for the amended C1 theorem: the marker-free run
`ab{{{3}}}c` (whose re-tokenization produces a template-parameter token
with exact tsr `[2,9]`) escapes to `ab<nowiki>{{{3}}}</nowiki>c`, and
discarding the markers recovers the run. -/
theorem c1_escaping_roundtrip_witness :
    markerFree ("ab{{{3}}}c".toList) ∧
    stripNowiki (escapeWikiText pegTokenize { env := {} } ("ab{{{3}}}c".toList)).res =
      "ab{{{3}}}c".toList :=
  ⟨by decide,
   c1_escaping_roundtrip pegTokenize { env := {} } ("ab{{{3}}}c".toList) rfl (by decide)
    (by
      show EscWF 0 ("ab{{{3}}}c".toList) 0
        [Tk.text ['a', 'b'],
         Tk.selfClosing "templatearg" [] { tsr := some (2, 9) },
         Tk.text ['c'], Tk.eof]
      refine EscWF.str 0 ['a', 'b'] _ (by decide) ?_
      refine EscWF.run 2 9 [Tk.selfClosing "templatearg" [] { tsr := some (2, 9) }]
        [Tk.text ['c'], Tk.eof] 9 2 (by simp) (by decide) (by decide) (by decide)
        (by decide) rfl ?_
      refine EscWF.str 9 ['c'] _ (by decide) ?_
      exact EscWF.eof)⟩

end WSP

end Parsoid